import Mathlib

/-!
Shallow embedding of the dbgen template engine (Go sources) in Lean 4,
together with theorems settling the frozen claims about its specification.

Conventions of the embedding:
* Go `int64` values are `Int` with two's-complement wraparound made explicit
  through `wrap64`; `*big.Int` is `Int`.
* Go interface values of type `constant.Value` may be `nil`; the embedding
  makes that state explicit with the constructor `Value.goNil`.
* Fallible Go code returns `Except GoErr _`.  Go runtime panics (nil method
  call, `panic("unimplemented")`) are folded into the same monad as the
  distinguished errors `GoErr.goPanic _`; nothing in the sources recovers
  from a panic, so this preserves observable behaviour.
* IEEE-754 float arithmetic is outside the embedding.  Branches of the Go
  code whose *result value* depends on float semantics return
  `GoErr.unmodelledFloat`; no claim below depends on such a branch.
* Loops whose termination is not structural take an explicit fuel argument;
  exhaustion yields `GoErr.outOfFuel`, which is never reached at the fuel
  used by the theorems.
-/

namespace Dbgen

/-- Smallest Go int64 value, -2^63. -/
def int64Min : Int := -9223372036854775808

/-- Largest Go int64 value, 2^63 - 1. -/
def int64Max : Int := 9223372036854775807

/-- Whether an integer is representable as a Go int64
(`big.Int.IsInt64` on an exact integer). -/
def inInt64 (i : Int) : Bool := decide (int64Min ≤ i ∧ i ≤ int64Max)

/-- Two's-complement wraparound of Go int64 arithmetic. -/
def wrap64 (n : Int) : Int :=
  (n + 9223372036854775808) % 18446744073709551616 - 9223372036854775808

/-- Go int64 division: truncated, with the single wraparound case
`math.MinInt64 / -1 = math.MinInt64` (Go spec). -/
def goQuot64 (a b : Int) : Int := wrap64 (Int.tdiv a b)

namespace Constant

/-- `constant.Kind` (src/unnamed/part_000). -/
inductive Kind where
  | null
  | bool
  | bytes
  | int
  | float
  | timestamp
  | interval
  | array
deriving DecidableEq, Repr

/-- The stringer-generated `Kind.String` (`//go:generate stringer`). -/
def Kind.str : Kind → String
  | .null => "Null"
  | .bool => "Bool"
  | .bytes => "Bytes"
  | .int => "Int"
  | .float => "Float"
  | .timestamp => "Timestamp"
  | .interval => "Interval"
  | .array => "Array"

/-- Go `float64` values reaching this embedding arise only from literal
parsing; their numeric semantics are uninterpreted here. -/
inductive GoFloat where
  | parsed (lit : String)
deriving DecidableEq, Repr

/-- `constant.Value` (src/unnamed/part_000).  The Go type is an interface;
`goNil` is the nil interface value (distinct from the `Null` singleton,
which is `nullVal{}`). -/
inductive Value where
  | null
  | goNil
  | bool (b : Bool)
  | bytes (s : List Char)
  /-- `int64Val`, the 64-bit fast form. -/
  | int64 (i : Int)
  /-- `intVal{val *big.Int}`, the big form. -/
  | intBig (i : Int)
  | float (f : GoFloat)
  /-- `timestampVal`; `time.Time` modelled as an absolute nanosecond count. -/
  | timestamp (ns : Int)
  /-- `intervalVal`; `time.Duration` is an int64 nanosecond count. -/
  | interval (ns : Int)
  | array (xs : List Value)

/-- `Value.Kind()`.  Calling a method on the nil interface value panics,
hence the `Option`. -/
def kind : Value → Option Kind
  | .null => some .null
  | .goNil => none
  | .bool _ => some .bool
  | .bytes _ => some .bytes
  | .int64 _ => some .int
  | .intBig _ => some .int
  | .float _ => some .float
  | .timestamp _ => some .timestamp
  | .interval _ => some .interval
  | .array _ => some .array

/-- Structured errors of the `constant` package and the evaluator.
Messages produced via `fmt.Errorf`/`errors.New` are kept as strings. -/
inductive GoErr where
  | convert (v : Value) (target : String)
  | compare (a b : Value)
  | binaryOp (op : String) (a b : Value) (cause : Option GoErr)
  | unaryOp (op : String) (v : Value) (cause : Option GoErr)
  | divideByZero
  | errorf (msg : String)
  | goPanic (msg : String)
  | unmodelledFloat
  | unmodelled (what : String)
  | outOfFuel

def MakeBool (b : Bool) : Value := .bool b

def MakeBytes (s : List Char) : Value := .bytes s

def MakeInt64 (i : Int) : Value := .int64 i

/-- `MakeInt`: downgrade a big integer to the fast form when it fits. -/
def MakeInt (i : Int) : Value :=
  if inInt64 i then .int64 i else .intBig i

def MakeFloat (f : GoFloat) : Value := .float f

def MakeTimestamp (t : Int) : Value := .timestamp t

def MakeInterval (d : Int) : Value := .interval d

/-- `MakeArray`: an empty input list is materialized as `arrayVal{nil}`,
a one-element array whose element is the nil interface value. -/
def MakeArray (a : List Value) : Value :=
  if a.isEmpty then .array [.goNil] else .array a

def AsBool : Value → Except GoErr Bool
  | .bool b => .ok b
  | v => .error (.convert v "bool")

def AsBytes : Value → Except GoErr (List Char)
  | .bytes s => .ok s
  | v => .error (.convert v "[]byte")

/-- `IsInt64` reports whether v can be represented as an int64. -/
def IsInt64 : Value → Bool
  | .intBig i => inInt64 i
  | .int64 _ => true
  | _ => false

def AsInt64 : Value → Except GoErr Int
  | .intBig i => if inInt64 i then .ok i else .error (.convert (.intBig i) "int64")
  | .int64 i => .ok i
  | v => .error (.convert v "int64")

def AsInt : Value → Except GoErr Int
  | .intBig i => .ok i
  | .int64 i => .ok i
  | v => .error (.convert v "*big.Int")

def AsTimestamp : Value → Except GoErr Int
  | .timestamp t => .ok t
  | v => .error (.convert v "time.Time")

def AsInterval : Value → Except GoErr Int
  | .interval d => .ok d
  | v => .error (.convert v "time.Duration")

def AsArray : Value → Except GoErr (List Value)
  | .array xs => .ok xs
  | v => .error (.convert v "[]Value")

/-- Whether a Go interface comparison `v == Null` succeeds: true exactly
when the dynamic type is the `nullVal` singleton. -/
def isNullV : Value → Bool
  | .null => true
  | _ => false

/-- `numberCmp` on an ordered domain. -/
def numberCmp (a b : Int) : Int :=
  if a < b then -1 else if a > b then 1 else 0

/-- `Sign`.  The float case compares IEEE values and is outside the
embedding (`none`); every claim below avoids it.  All remaining kinds,
including Null, fall to the Go default branch returning 1. -/
def Sign : Value → Option Int
  | .intBig i => some (numberCmp i 0)
  | .int64 i => some (numberCmp i 0)
  | .float _ => none
  | .interval d => some (numberCmp d 0)
  | _ => some 1

/-- `bytes.Compare`: lexicographic byte-wise comparison. -/
def bytesCompare : List Char → List Char → Int
  | [], [] => 0
  | [], _ :: _ => -1
  | _ :: _, [] => 1
  | a :: as, b :: bs =>
    if a.val < b.val then -1
    else if b.val < a.val then 1
    else bytesCompare as bs

/-- The deferred wrapping in `Cmp`: any non-`CompareError` Go error is
replaced by `CompareError{a, b}`.  Panics and the embedding artifacts are
not Go error values and pass through untouched. -/
def wrapCmp (a b : Value) : Except GoErr (Int × Bool) → Except GoErr (Int × Bool)
  | .error (.compare x y) => .error (.compare x y)
  | .error (.goPanic m) => .error (.goPanic m)
  | .error .outOfFuel => .error .outOfFuel
  | .error .unmodelledFloat => .error .unmodelledFloat
  | .error (.unmodelled w) => .error (.unmodelled w)
  | .error _ => .error (.compare a b)
  | .ok r => .ok r

/-- The body of `Cmp` including the recursion into array elements.
The result pair is (ordering, isNull).  The fuel bounds only the array
nesting depth; `Cmp` supplies a sufficient amount. -/
def cmpFuel : Nat → Value → Value → Except GoErr (Int × Bool)
  | 0, _, _ => .error .outOfFuel
  | fuel + 1, a, b =>
    -- `a == Null || b == Null` compares interfaces against the singleton.
    if isNullV a then .ok (0, true)
    else if isNullV b then .ok (0, true)
    else
      match a with
      | .bool ab =>
        match AsBool b with
        | .error e => .error e
        | .ok bb =>
          if ab == bb then .ok (0, false)
          else if !ab && bb then .ok (-1, false)
          else .ok (1, false)
      | .bytes as =>
        match AsBytes b with
        | .error e => .error e
        | .ok bs => .ok (bytesCompare as bs, false)
      | .intBig ai =>
        match kind b with
        | none => .error (.goPanic "nil pointer dereference")
        | some .int =>
          match AsInt b with
          | .error e => .error e
          | .ok bi => .ok (numberCmp ai bi, false)
        | some .float => .error .unmodelledFloat
        | some _ => .error (.compare a b)
      | .int64 ai =>
        if IsInt64 b then
          match AsInt64 b with
          | .error e => .error e
          | .ok bi => .ok (numberCmp ai bi, false)
        else
          match kind b with
          | none => .error (.goPanic "nil pointer dereference")
          | some .int =>
            match AsInt b with
            | .error e => .error e
            | .ok bi => .ok (numberCmp ai bi, false)
          | some .float => .error .unmodelledFloat
          | some _ => .error (.compare a b)
      | .float _ =>
        -- `AsFloat(b)` succeeds exactly on float and integer kinds; the
        -- resulting IEEE comparison is outside the embedding.
        match b with
        | .float _ | .int64 _ | .intBig _ => .error .unmodelledFloat
        | _ => .error (.convert b "float64")
      | .timestamp at_ =>
        match AsTimestamp b with
        | .error e => .error e
        | .ok bt => .ok (numberCmp at_ bt, false)
      | .interval ad =>
        match AsInterval b with
        | .error e => .error e
        | .ok bd => .ok (numberCmp ad bd, false)
      | .array xs =>
        match AsArray b with
        | .error e => .error e
        | .ok ys =>
          -- the element loop over the common prefix, with early exit kept
          -- in the accumulator
          let looped : Option (Except GoErr (Int × Bool)) :=
            (xs.zip ys).foldl
              (fun acc p =>
                match acc with
                | some r => some r
                | none =>
                  match wrapCmp p.1 p.2 (cmpFuel fuel p.1 p.2) with
                  | .error e => some (.error e)
                  | .ok (_, true) => some (.ok (0, true))
                  | .ok (r, false) =>
                    if r = 0 then none else some (.ok (r, false)))
              none
          match looped with
          | some out => out
          | none => .ok (numberCmp xs.length ys.length, false)
      | .null => .ok (0, true)
      | .goNil => .error (.compare a b)

/-- `constant.Cmp` (src/unnamed/part_000).  The fuel bounds only the
array nesting depth; any fuel larger than the depth of `a` gives the Go
behaviour. -/
def Cmp (fuel : Nat) (a b : Value) : Except GoErr (Int × Bool) :=
  wrapCmp a b (cmpFuel fuel a b)

/-- The deferred wrapping shared by the binary arithmetic functions: any
non-`BinaryOpError` Go error becomes the cause of a `BinaryOpError`.
Panics and the embedding artifacts pass through untouched. -/
def wrapBinOp (op : String) (a b : Value) :
    Except GoErr Value → Except GoErr Value
  | .error e =>
    match e with
    | .binaryOp o x y c => .error (.binaryOp o x y c)
    | .goPanic m => .error (.goPanic m)
    | .outOfFuel => .error .outOfFuel
    | .unmodelledFloat => .error .unmodelledFloat
    | .unmodelled w => .error (.unmodelled w)
    | _ => .error (.binaryOp op a b (some e))
  | .ok v => .ok v

/-- Body of `constant.Add`.  Note that the overflow paths build `intVal`
directly (no `MakeInt` normalization). -/
def addBody (a b : Value) : Except GoErr Value :=
  match a with
  | .intBig ai =>
    match kind b with
    | none => .error (.goPanic "nil pointer dereference")
    | some .int =>
      match AsInt b with
      | .error e => .error e
      | .ok bi => .ok (.intBig (ai + bi))
    | some .float => .error .unmodelledFloat
    | some _ => .error (.binaryOp "add" a b none)
  | .int64 ai =>
    if IsInt64 b then
      match AsInt64 b with
      | .error e => .error e
      | .ok bi =>
        -- sum := int64(a) + b; if (sum > int64(a)) == (b > 0) { return }
        let sum := wrap64 (ai + bi)
        if (decide (sum > ai)) == (decide (bi > 0)) then .ok (.int64 sum)
        else
          -- Overflow: fall through to the big-integer path below.
          addInt64Slow ai b
    else addInt64Slow ai b
  | .float _ =>
    match b with
    | .float _ | .int64 _ | .intBig _ => .error .unmodelledFloat
    | _ => .error (.convert b "float64")
  | .timestamp t =>
    match AsInterval b with
    | .error e => .error e
    | .ok d => .ok (.timestamp (t + d))
  | .interval ad =>
    match b with
    | .timestamp t => .ok (.timestamp (t + ad))
    | _ =>
      match AsInterval b with
      | .error e => .error e
      | .ok bd => .ok (.interval (wrap64 (ad + bd)))
  | _ => .error (.binaryOp "add" a b none)
where
  /-- The `switch b.Kind()` fall-through of the int64 case of `Add`. -/
  addInt64Slow (ai : Int) (b : Value) : Except GoErr Value :=
    match kind b with
    | none => .error (.goPanic "nil pointer dereference")
    | some .int =>
      match AsInt b with
      | .error e => .error e
      | .ok bi => .ok (.intBig (ai + bi))
    | some .float => .error .unmodelledFloat
    | some _ => .error (.binaryOp "add" (.int64 ai) b none)

/-- `constant.Add`. -/
def Add (a b : Value) : Except GoErr Value :=
  if isNullV a then .ok .null
  else if isNullV b then .ok .null
  else wrapBinOp "add" a b (addBody a b)

/-- Body of `constant.Sub`.  The int64 fast path is transcribed exactly as
in the source: it computes `sum := int64(a) + b` (an addition) and applies
the subtraction sign-agreement test `(sum > int64(a)) == (b < 0)` to it. -/
def subBody (a b : Value) : Except GoErr Value :=
  match a with
  | .intBig ai =>
    match kind b with
    | none => .error (.goPanic "nil pointer dereference")
    | some .int =>
      match AsInt b with
      | .error e => .error e
      | .ok bi => .ok (.intBig (ai - bi))
    | some .float => .error .unmodelledFloat
    | some _ => .error (.binaryOp "sub" a b none)
  | .int64 ai =>
    if IsInt64 b then
      match AsInt64 b with
      | .error e => .error e
      | .ok bi =>
        let sum := wrap64 (ai + bi)
        if (decide (sum > ai)) == (decide (bi < 0)) then .ok (.int64 sum)
        else
          -- Overflow.
          subInt64Slow ai b
    else subInt64Slow ai b
  | .float _ =>
    match b with
    | .float _ | .int64 _ | .intBig _ => .error .unmodelledFloat
    | _ => .error (.convert b "float64")
  | .timestamp t =>
    match AsInterval b with
    | .error e => .error e
    | .ok d => .ok (.timestamp (t + (wrap64 (-d))))
  | .interval ad =>
    match b with
    | .timestamp t => .ok (.timestamp (t + (wrap64 (-ad))))
    | _ =>
      match AsInterval b with
      | .error e => .error e
      | .ok bd => .ok (.interval (wrap64 (ad - bd)))
  | _ => .error (.binaryOp "sub" a b none)
where
  /-- The `switch b.Kind()` fall-through of the int64 case of `Sub`. -/
  subInt64Slow (ai : Int) (b : Value) : Except GoErr Value :=
    match kind b with
    | none => .error (.goPanic "nil pointer dereference")
    | some .int =>
      match AsInt b with
      | .error e => .error e
      | .ok bi => .ok (.intBig (ai - bi))
    | some .float => .error .unmodelledFloat
    | some _ => .error (.binaryOp "sub" (.int64 ai) b none)

/-- `constant.Sub`. -/
def Sub (a b : Value) : Except GoErr Value :=
  if isNullV a then .ok .null
  else if isNullV b then .ok .null
  else wrapBinOp "sub" a b (subBody a b)

/-- Body of `constant.Mul`.  The int64 fast path accepts the wrapped
product when `a == 0 || b == 0 || a == 1 || b == 1` or the inverse
division `result/int64(a) == b` holds. -/
def mulBody (a b : Value) : Except GoErr Value :=
  match a with
  | .intBig ai =>
    match kind b with
    | none => .error (.goPanic "nil pointer dereference")
    | some .int =>
      match AsInt b with
      | .error e => .error e
      | .ok bi => .ok (.intBig (ai * bi))
    | some .float => .error .unmodelledFloat
    | some .interval =>
      match AsInterval b with
      | .error e => .error e
      | .ok bd =>
        -- big.Int.Int64 on an out-of-range value: lower 64 bits, as in
        -- the gc runtime
        .ok (.interval (wrap64 (ai * bd)))
    | some _ => .error (.binaryOp "mul" a b none)
  | .int64 ai =>
    if IsInt64 b then
      match AsInt64 b with
      | .error e => .error e
      | .ok bi =>
        let result := wrap64 (ai * bi)
        if ai = 0 || bi = 0 || ai = 1 || bi = 1 || goQuot64 result ai = bi then
          .ok (.int64 result)
        else
          -- Overflow.
          mulInt64Slow ai b
    else mulInt64Slow ai b
  | .float _ =>
    match b with
    | .interval _ => .error .unmodelledFloat
    | .float _ | .int64 _ | .intBig _ => .error .unmodelledFloat
    | _ => .error (.convert b "float64")
  | .interval ad =>
    match kind b with
    | none => .error (.goPanic "nil pointer dereference")
    | some .int =>
      if ad = 0 then .ok (.interval 0)
      else if IsInt64 b then
        match AsInt64 b with
        | .error e => .error e
        | .ok bi =>
          let result := wrap64 (ad * bi)
          if bi = 0 || ad = 1 || bi = 1 || goQuot64 result ad = bi then
            .ok (.interval result)
          else .error (.binaryOp "mul" a b none)
      else .error (.binaryOp "mul" a b none)
    | some .float => .error .unmodelledFloat
    | some _ => .error (.binaryOp "mul" a b none)
  | _ => .error (.binaryOp "mul" a b none)
where
  /-- The `switch b.Kind()` fall-through of the int64 case of `Mul`. -/
  mulInt64Slow (ai : Int) (b : Value) : Except GoErr Value :=
    match kind b with
    | none => .error (.goPanic "nil pointer dereference")
    | some .int =>
      match AsInt b with
      | .error e => .error e
      | .ok bi => .ok (.intBig (ai * bi))
    | some .float => .error .unmodelledFloat
    | some .interval =>
      match AsInterval b with
      | .error e => .error e
      | .ok bd => .ok (.interval (wrap64 (ai * bd)))
    | some _ => .error (.binaryOp "mul" (.int64 ai) b none)

/-- `constant.Mul`. -/
def Mul (a b : Value) : Except GoErr Value :=
  if isNullV a then .ok .null
  else if isNullV b then .ok .null
  else wrapBinOp "mul" a b (mulBody a b)


/-- Decimal digit value. -/
def decDigit (c : Char) : Option Nat :=
  if '0' ≤ c ∧ c ≤ '9' then some (c.toNat - '0'.toNat) else none

/-- Digit value in bases up to 16 (`big.Int` scanning). -/
def digitVal (c : Char) : Option Nat :=
  if '0' ≤ c ∧ c ≤ '9' then some (c.toNat - '0'.toNat)
  else if 'a' ≤ c ∧ c ≤ 'f' then some (c.toNat - 'a'.toNat + 10)
  else if 'A' ≤ c ∧ c ≤ 'F' then some (c.toNat - 'A'.toNat + 10)
  else none

/-- A nonempty run of plain decimal digits (`strconv.ParseUint`, base 10,
underscores forbidden because the base is given explicitly). -/
def decDigitsVal : List Char → Option Nat
  | [] => none
  | cs => go cs 0
where
  go : List Char → Nat → Option Nat
    | [], acc => some acc
    | c :: rest, acc =>
      match decDigit c with
      | some d => go rest (acc * 10 + d)
      | none => none

/-- `strconv.ParseInt(s, 10, 64)`: optional sign, one or more decimal
digits, value within the int64 range. -/
def parseInt64Dec (s : List Char) : Option Int :=
  match s with
  | [] => none
  | c :: rest =>
    let signed : Bool × List Char :=
      if c = '+' then (false, rest)
      else if c = '-' then (true, rest)
      else (false, s)
    match decDigitsVal signed.2 with
    | none => none
    | some n =>
      let v : Int := if signed.1 then -(n : Int) else (n : Int)
      if inInt64 v then some v else none

/-- Digit scanning of `big.Int.SetString` with base 0: digits of the
detected base with underscores permitted between a prefix/digit and a
digit.  `seen` records whether a digit or base prefix has been consumed,
`prevUnd` whether the previous character was an underscore. -/
def scanBigDigits (base : Nat) : List Char → Nat → Bool → Bool → Option Nat
  | [], acc, seen, prevUnd =>
    if seen ∧ ¬prevUnd then some acc else none
  | c :: rest, acc, seen, prevUnd =>
    if c = '_' then
      if seen ∧ ¬prevUnd then scanBigDigits base rest acc seen true else none
    else
      match digitVal c with
      | some d => if d < base then scanBigDigits base rest (acc * base + d) true false else none
      | none => none

/-- `big.Int.SetString(s, 0)`: optional sign, base prefix `0b`/`0o`/`0x`
(or legacy octal after a bare leading `0`), digits with underscores; the
whole string must be consumed. -/
def bigSetString0 (s : List Char) : Option Int :=
  match s with
  | [] => none
  | c :: rest =>
    let signed : Bool × List Char :=
      if c = '+' then (false, rest)
      else if c = '-' then (true, rest)
      else (false, s)
    let mag : Option Nat :=
      match signed.2 with
      | '0' :: c1 :: ds =>
        if c1 = 'b' ∨ c1 = 'B' then scanBigDigits 2 ds 0 true false
        else if c1 = 'o' ∨ c1 = 'O' then scanBigDigits 8 ds 0 true false
        else if c1 = 'x' ∨ c1 = 'X' then scanBigDigits 16 ds 0 true false
        else scanBigDigits 8 (c1 :: ds) 0 true false
      | ['0'] => some 0
      | other => scanBigDigits 10 other 0 false false
    match mag with
    | none => none
    | some n => some (if signed.1 then -(n : Int) else (n : Int))

/-- Consume a nonempty digit run with Go literal underscore placement;
returns the remaining characters. -/
def eatDigitsU (isDig : Char → Bool) : List Char → Bool → Bool → Option (List Char)
  | [], seen, prevUnd => if seen ∧ ¬prevUnd then some [] else none
  | c :: rest, seen, prevUnd =>
    if c = '_' then
      if seen ∧ ¬prevUnd then eatDigitsU isDig rest seen true else none
    else if isDig c then eatDigitsU isDig rest true false
    else if seen ∧ ¬prevUnd then some (c :: rest) else none

/-- Lower-case a Latin character (`strconv` lower). -/
def lowerAscii (c : Char) : Char :=
  if 'A' ≤ c ∧ c ≤ 'Z' then Char.ofNat (c.toNat + 32) else c

/-- Acceptance of `strconv.ParseFloat(s, 64)`.  This predicate models the
syntax only (decimal and hex mantissas, exponents, inf/nan); claims never
depend on the float fallback, and the ErrRange failure of syntactically
valid but overflowing literals is not modelled. -/
def goFloatSyntax (s : List Char) : Bool :=
  match s with
  | [] => false
  | _ =>
    let low := s.map lowerAscii
    if low = "nan".data then true
    else
      let signed : List Char :=
        match s with
        | c :: rest => if c = '+' ∨ c = '-' then rest else s
        | [] => s
      let lowS := signed.map lowerAscii
      if lowS = "inf".data ∨ lowS = "infinity".data then true
      else
        match signed with
        | '0' :: c1 :: ds =>
          if c1 = 'x' ∨ c1 = 'X' then hexMantissaExp ds
          else decMantissaExp signed
        | _ => decMantissaExp signed
where
  isDec (c : Char) : Bool := (decDigit c).isSome
  isHex (c : Char) : Bool := (digitVal c).isSome
  decExp : List Char → Bool
    | [] => true
    | 'e' :: rest | 'E' :: rest =>
      (match rest with
       | c :: rest2 =>
         (eatDigitsU isDec (if c = '+' ∨ c = '-' then rest2 else rest) false false)
           = some []
       | [] => false)
    | _ => false
  decMantissaExp (cs : List Char) : Bool :=
    match eatDigitsU isDec cs false false with
    | none =>
      -- no leading digits: require .digits
      (match cs with
       | '.' :: rest =>
         (match eatDigitsU isDec rest false false with
          | some rest2 => decExp rest2
          | none => false)
       | _ => false)
    | some rest =>
      match rest with
      | '.' :: rest2 =>
        (match eatDigitsU isDec rest2 false false with
         | some rest3 => decExp rest3
         | none => decExp rest2)
      | _ => decExp rest
  hexExp : List Char → Bool
    | 'p' :: rest | 'P' :: rest =>
      (match rest with
       | c :: rest2 =>
         (eatDigitsU isDec (if c = '+' ∨ c = '-' then rest2 else rest) false false)
           = some []
       | [] => false)
    | _ => false
  hexMantissaExp (cs : List Char) : Bool :=
    match eatDigitsU isHex cs false false with
    | none =>
      (match cs with
       | '.' :: rest =>
         (match eatDigitsU isHex rest false false with
          | some rest2 => hexExp rest2
          | none => false)
       | _ => false)
    | some rest =>
      match rest with
      | '.' :: rest2 =>
        (match eatDigitsU isHex rest2 false false with
         | some rest3 => hexExp rest3
         | none => hexExp rest2)
      | _ => hexExp rest

/-- `constant.MakeNumberFromLiteral` (src/unnamed/part_000): try the
decimal int64 parse, then the base-0 big-integer parse (note: the result
is wrapped as `intVal{bi}` directly, without the `MakeInt` downgrade),
then the float parse. -/
def MakeNumberFromLiteral (s : List Char) : Except GoErr Value :=
  match parseInt64Dec s with
  | some i => .ok (MakeInt64 i)
  | none =>
    match bigSetString0 s with
    | some v => .ok (.intBig v)
    | none =>
      if goFloatSyntax s then .ok (MakeFloat (.parsed (String.mk s)))
      else .error (.errorf "invalid number literal")

/-- The mathematical integer carried by a value of integer kind. -/
def intKindVal : Value → Option Int
  | .int64 i => some i
  | .intBig i => some i
  | _ => none

end Constant

end Dbgen

namespace Dbgen

/-- Go strings are modelled as byte/char lists (all inputs of interest
are ASCII). -/
abbrev GoStr := List Char

/-- Coerce a Lean string literal to the Go string model. -/
def str (s : String) : GoStr := s.data

/-- `strings.ToLower`, restricted to the ASCII fold (no input in this
development contains non-ASCII letters). -/
def goToLower (s : GoStr) : GoStr := s.map Constant.lowerAscii

/-- One step of `strings.Replace`: fuel is the remaining length, which
suffices because every step consumes at least one character. -/
def replaceAllGo (old new : GoStr) : Nat → GoStr → GoStr
  | 0, s => s
  | fuel + 1, s =>
    match s with
    | [] => []
    | c :: rest =>
      if old.isPrefixOf s then new ++ replaceAllGo old new fuel (s.drop old.length)
      else c :: replaceAllGo old new fuel rest

/-- `strings.ReplaceAll`: non-overlapping left-to-right replacement; an
empty pattern inserts the replacement around every character. -/
def replaceAll (s old new : GoStr) : GoStr :=
  if old.isEmpty then new ++ s.flatMap (fun c => c :: new)
  else replaceAllGo old new s.length s

/-- `strings.Join`. -/
def joinSep (sep : GoStr) : List GoStr → GoStr
  | [] => []
  | [x] => x
  | x :: xs => x ++ sep ++ joinSep sep xs

namespace Tmpl

open Constant

/-- `template.unescape` (src/unnamed/part_002): strip one layer of
quoting and unescape the doubled quote character. -/
def unescape (s : GoStr) : GoStr :=
  if s.length < 2 then s
  else
    match s with
    | c :: _ =>
      if c = '"' ∨ c = '`' ∨ c = '\'' then
        replaceAll ((s.drop 1).dropLast) [c, c] [c]
      else if c = '[' then (s.drop 1).dropLast
      else s
    | [] => s

/-- `template.Name`: original lexeme `o` and normalized form `n`. -/
structure Name where
  o : GoStr
  n : GoStr
deriving DecidableEq, Repr

/-- `template.NewName`. -/
def NewName (name : GoStr) : Name :=
  { o := name, n := goToLower (unescape name) }

/-- `template.QName`: schema-qualified name. -/
structure QName where
  parts : List Name
deriving DecidableEq, Repr

/-- `template.NewQName`. -/
def NewQName (names : List GoStr) : QName :=
  { parts := names.map NewName }

/-- `QName.UniqueName`: normalized parts joined with a dot, any dot
inside a part escaped as `%2E`. -/
def UniqueName (q : QName) : GoStr :=
  joinSep (str ".") (q.parts.map (fun p => replaceAll p.n (str ".") (str "%2E")))

/-- `QName.Equal`. -/
def QEqual (q other : QName) : Bool :=
  UniqueName q = UniqueName other

/-- `template.Op`. -/
inductive Op where
  | invalid
  | assign
  | lt
  | le
  | gt
  | ge
  | eq
  | ne
  | concat
  | add
  | sub
  | mul
  | floatDiv
  | bitAnd
  | bitOr
  | bitXor
  | bitNot
  | semicolon
  | or
  | and
  | not
  | is
  | isNot
deriving DecidableEq, Repr

/-- `Op.String`. -/
def Op.str : Op → String
  | .assign => ":="
  | .lt => "<"
  | .le => "<="
  | .gt => ">"
  | .ge => ">="
  | .eq => "="
  | .ne => "<>"
  | .concat => "||"
  | .add => "+"
  | .sub => "-"
  | .mul => "*"
  | .floatDiv => "/"
  | .bitAnd => "&"
  | .bitOr => "|"
  | .bitXor => "^"
  | .bitNot => "~"
  | .semicolon => ";"
  | .or => "OR"
  | .and => "AND"
  | .not => "NOT"
  | .is => "IS"
  | .isNot => "IS NOT"
  | .invalid => "invalid"

/-- `Op.Prec`. -/
def Op.prec : Op → Nat
  | .semicolon => 1
  | .assign => 2
  | .or => 3
  | .and => 4
  | .not => 5
  | .lt | .le | .gt | .ge | .eq | .ne | .is | .isNot => 6
  | .bitOr | .bitXor => 7
  | .bitAnd => 8
  | .add | .sub | .concat => 9
  | .mul | .floatDiv => 10
  | .bitNot => 11
  | _ => 0

/-- `Op.IsRightAssoc`. -/
def Op.isRightAssoc : Op → Bool
  | .assign => true
  | _ => false

/-- `Op.IsBinary`. -/
def Op.isBinary : Op → Bool
  | .assign | .lt | .le | .gt | .ge | .eq | .ne | .concat | .add | .sub
  | .mul | .floatDiv | .bitAnd | .bitOr | .bitXor | .semicolon | .or
  | .and | .is | .isNot => true
  | _ => false

/-- `template.StringUnit`. -/
inductive StringUnit where
  | unspecified
  | characters
  | octets
deriving DecidableEq, Repr

/-- Interval units in nanoseconds (`template.IntervalUnit`). -/
def IntervalUnitWeek : Int := 604800000000000

def IntervalUnitDay : Int := 86400000000000

def IntervalUnitHour : Int := 3600000000000

def IntervalUnitMinute : Int := 60000000000

def IntervalUnitSecond : Int := 1000000000

def IntervalUnitMillisecond : Int := 1000000

def IntervalUnitMicrosecond : Int := 1000

/-- `template.Expr`, the parsed expression AST (src/unnamed/part_002).
`When` pairs are (cond, then); optional children are Go nil pointers. -/
inductive Expr where
  | rowNum
  | subRowNum
  | currentTimestamp
  | constant (v : Value)
  | getVariable (name : GoStr)
  | setVariable (name : GoStr) (value : Expr)
  | unary (op : Op) (e : Expr)
  | binary (op : Op) (l r : Expr)
  | paren (e : Expr)
  | func (name : QName) (args : List Expr)
  | caseValueWhen (value : Option Expr) (whens : List (Expr × Expr)) (els : Option Expr)
  | timestampLit (withTimezone : Bool) (value : Expr)
  | intervalLit (unit : Int) (value : Expr)
  | arrayLit (elems : List Expr)
  | subscript (base index : Expr)
  | substringE (input : Expr) (from_ for_ : Option Expr) (unit : StringUnit)
  | overlayE (input placing : Expr) (from_ for_ : Option Expr) (unit : StringUnit)

/-- `template.Table` (AST side). -/
structure Table where
  name : QName
  content : GoStr
  columns : List (Name × Expr)
  derived : List (Nat × Expr)

/-- `template.Template` (AST side). -/
structure Template where
  globalExprs : List Expr
  tables : List Table

end Tmpl

end Dbgen

namespace Dbgen

namespace Constant

/-- Body of `constant.Div`.  `big.Int.Div` is Euclidean division
(`Int.ediv`); Go int64 division is truncated with the
`MinInt64 / -1` wraparound (`goQuot64`). -/
def divBody (a b : Value) : Except GoErr Value :=
  match a with
  | .intBig ai =>
    match kind b with
    | none => .error (.goPanic "nil pointer dereference")
    | some .int =>
      match AsInt b with
      | .error e => .error e
      | .ok bi =>
        if inInt64 bi ∧ bi = 0 then .error .divideByZero
        else .ok (.intBig (Int.ediv ai bi))
    | some .float => .error .unmodelledFloat
    | some _ => .error (.binaryOp "div" a b none)
  | .int64 ai =>
    if IsInt64 b then
      match AsInt64 b with
      | .error e => .error e
      | .ok bi =>
        if bi = 0 then .error .divideByZero
        else .ok (.int64 (goQuot64 ai bi))
    else
      match kind b with
      | none => .error (.goPanic "nil pointer dereference")
      | some .int =>
        match AsInt b with
        | .error e => .error e
        | .ok bi => .ok (.intBig (Int.ediv ai bi))
      | some .float => .error .unmodelledFloat
      | some _ => .error (.binaryOp "div" a b none)
  | .float _ =>
    match b with
    | .float _ | .int64 _ | .intBig _ => .error .unmodelledFloat
    | _ => .error (.convert b "float64")
  | _ => .error (.binaryOp "div" a b none)

/-- `constant.Div`. -/
def Div (a b : Value) : Except GoErr Value :=
  if isNullV a then .ok .null
  else if isNullV b then .ok .null
  else wrapBinOp "div" a b (divBody a b)

/-- Body of `constant.Mod`.  `big.Int.Mod` is the Euclidean modulus
(`Int.emod`); Go's `%` on int64 is the truncated remainder
(`Int.tmod`). -/
def modBody (a b : Value) : Except GoErr Value :=
  match a with
  | .intBig ai =>
    match kind b with
    | none => .error (.goPanic "nil pointer dereference")
    | some .int =>
      match AsInt b with
      | .error e => .error e
      | .ok bi =>
        if inInt64 bi ∧ bi = 0 then .error .divideByZero
        else .ok (.intBig (Int.emod ai bi))
    | some .float => .error .unmodelledFloat
    | some _ => .error (.binaryOp "mod" a b none)
  | .int64 ai =>
    if IsInt64 b then
      match AsInt64 b with
      | .error e => .error e
      | .ok bi =>
        if bi = 0 then .error .divideByZero
        else .ok (.int64 (Int.tmod ai bi))
    else
      match kind b with
      | none => .error (.goPanic "nil pointer dereference")
      | some .int =>
        match AsInt b with
        | .error e => .error e
        | .ok bi => .ok (.intBig (Int.emod ai bi))
      | some .float => .error .unmodelledFloat
      | some _ => .error (.binaryOp "mod" a b none)
  | .float _ =>
    match b with
    | .float _ | .int64 _ | .intBig _ => .error .unmodelledFloat
    | _ => .error (.convert b "float64")
  | _ => .error (.binaryOp "mod" a b none)

/-- `constant.Mod`. -/
def Mod (a b : Value) : Except GoErr Value :=
  if isNullV a then .ok .null
  else if isNullV b then .ok .null
  else wrapBinOp "mod" a b (modBody a b)

/-- Body of `constant.FloatDiv`: every successful branch produces an
IEEE-754 result, which is outside the embedding. -/
def floatDivBody (a b : Value) : Except GoErr Value :=
  match kind a with
  | none => .error (.goPanic "nil pointer dereference")
  | some .int | some .float =>
    match b with
    | .float _ | .int64 _ | .intBig _ => .error .unmodelledFloat
    | _ => .error (.convert b "float64")
  | some .interval =>
    match AsInterval a with
    | .error e => .error e
    | .ok _ =>
      match b with
      | .float _ | .int64 _ | .intBig _ => .error .unmodelledFloat
      | _ => .error (.convert b "float64")
  | some _ => .error (.binaryOp "float_div" a b none)

/-- `constant.FloatDiv`. -/
def FloatDiv (a b : Value) : Except GoErr Value :=
  if isNullV a then .ok .null
  else if isNullV b then .ok .null
  else wrapBinOp "float_div" a b (floatDivBody a b)

/-- The deferred wrapping of `Neg`: any non-`UnaryOpError` Go error
becomes the cause of a `UnaryOpError`; panics and embedding artifacts
pass through. -/
def wrapUnaryOp (op : String) (a : Value) :
    Except GoErr Value → Except GoErr Value
  | .error e =>
    match e with
    | .unaryOp o x c => .error (.unaryOp o x c)
    | .goPanic m => .error (.goPanic m)
    | .outOfFuel => .error .outOfFuel
    | .unmodelledFloat => .error .unmodelledFloat
    | .unmodelled w => .error (.unmodelled w)
    | _ => .error (.unaryOp op a (some e))
  | .ok v => .ok v

/-- `constant.Neg`.  Negating `MinInt64` promotes to a big integer
holding +2^63; negating the minimal interval wraps. -/
def Neg (a : Value) : Except GoErr Value :=
  if isNullV a then .ok .null
  else
    wrapUnaryOp "neg" a
      (match a with
       | .intBig ai => .ok (.intBig (-ai))
       | .int64 ai =>
         if ai = int64Min then .ok (.intBig 9223372036854775808)
         else .ok (.int64 (-ai))
       | .float _ => .error .unmodelledFloat
       | .interval d => .ok (.interval (wrap64 (-d)))
       | _ => .error (.unaryOp "neg" a none))

/-- `Value.String()`.  Floats (shortest round-trip formatting),
timestamp layout and duration formatting are outside the embedding and
rendered schematically; no claim depends on these strings. -/
def valueStr : Nat → Value → String
  | _, .null => "NULL"
  | _, .goNil => "<nil>"
  | _, .bool b => if b then "TRUE" else "FALSE"
  | _, .bytes s => String.mk s
  | _, .int64 i => toString i
  | _, .intBig i => toString i
  | _, .float f => match f with | .parsed lit => lit
  | _, .timestamp ns => "timestamp(" ++ toString ns ++ ")"
  | _, .interval ns => toString ns ++ "ns"
  | 0, .array _ => "[…]"
  | fuel + 1, .array xs =>
    "[" ++ String.intercalate ", " (xs.map (valueStr fuel)) ++ "]"

end Constant

namespace Core

open Constant Tmpl

/-- The two registered `Encoding` implementations. -/
inductive Encoding where
  | hex
  | base64
deriving DecidableEq, Repr

/-- Hex digit characters (lower case), as produced by `hex.Encode`. -/
def hexChar (n : Nat) : Char :=
  if n < 10 then Char.ofNat ('0'.toNat + n) else Char.ofNat ('a'.toNat + n - 10)

/-- The base64 standard alphabet character at index n. -/
def b64Char (n : Nat) : Char :=
  if n < 26 then Char.ofNat ('A'.toNat + n)
  else if n < 52 then Char.ofNat ('a'.toNat + n - 26)
  else if n < 62 then Char.ofNat ('0'.toNat + n - 52)
  else if n = 62 then '+'
  else '/'

/-- `base64.StdEncoding.Encode` on a byte list. -/
def b64Encode : List Char → List Char
  | [] => []
  | [a] =>
    let v := a.toNat
    [b64Char (v / 4), b64Char (v % 4 * 16), '=', '=']
  | [a, b] =>
    let v := a.toNat * 256 + b.toNat
    [b64Char (v / 1024), b64Char (v / 16 % 64), b64Char (v % 16 * 4), '=']
  | a :: b :: c :: rest =>
    let v := a.toNat * 65536 + b.toNat * 256 + c.toNat
    b64Char (v / 262144) :: b64Char (v / 4096 % 64) :: b64Char (v / 64 % 64) ::
      b64Char (v % 64) :: b64Encode rest

/-- Value of a base64 alphabet character. -/
def b64Val (c : Char) : Option Nat :=
  if 'A' ≤ c ∧ c ≤ 'Z' then some (c.toNat - 'A'.toNat)
  else if 'a' ≤ c ∧ c ≤ 'z' then some (c.toNat - 'a'.toNat + 26)
  else if '0' ≤ c ∧ c ≤ '9' then some (c.toNat - '0'.toNat + 52)
  else if c = '+' then some 62
  else if c = '/' then some 63
  else none

/-- `base64.StdEncoding.Decode`; error positions of
`base64.CorruptInputError` are not reproduced, only the failure. -/
def b64Decode : List Char → Except GoErr (List Char)
  | [] => .ok []
  | c1 :: c2 :: c3 :: c4 :: rest =>
    match b64Val c1, b64Val c2 with
    | some v1, some v2 =>
      if c3 = '=' ∧ c4 = '=' ∧ rest = [] then
        .ok [Char.ofNat (v1 * 4 + v2 / 16)]
      else
        match b64Val c3 with
        | some v3 =>
          if c4 = '=' ∧ rest = [] then
            .ok [Char.ofNat (v1 * 4 + v2 / 16), Char.ofNat (v2 % 16 * 16 + v3 / 4)]
          else
            match b64Val c4 with
            | some v4 =>
              match b64Decode rest with
              | .error e => .error e
              | .ok tail =>
                .ok (Char.ofNat (v1 * 4 + v2 / 16) ::
                     Char.ofNat (v2 % 16 * 16 + v3 / 4) ::
                     Char.ofNat (v3 % 4 * 64 + v4) :: tail)
            | none => .error (.errorf "illegal base64 data")
        | none => .error (.errorf "illegal base64 data")
    | _, _ => .error (.errorf "illegal base64 data")
  | _ => .error (.errorf "illegal base64 data")

/-- `Encoding.Encode` composed with `EncodedLen` allocation. -/
def encodeBytes : Encoding → List Char → List Char
  | .hex, src => src.flatMap (fun c => [hexChar (c.toNat / 16), hexChar (c.toNat % 16)])
  | .base64, src => b64Encode src

/-- `Encoding.Decode`.  `hex.Decode` fails on an odd-length input or a
non-hex byte. -/
def decodeBytes : Encoding → List Char → Except GoErr (List Char)
  | .hex, src => hexDecode src
  | .base64, src => b64Decode src
where
  hexDecode : List Char → Except GoErr (List Char)
    | [] => .ok []
    | [_] => .error (.errorf "encoding/hex: odd length hex string")
    | c1 :: c2 :: rest =>
      match digitVal c1, digitVal c2 with
      | some v1, some v2 =>
        match hexDecode rest with
        | .error e => .error e
        | .ok tail => .ok (Char.ofNat (v1 * 16 + v2) :: tail)
      | _, _ => .error (.errorf "encoding/hex: invalid byte")

/-- The tag distinguishing the `constant` operation held by an
`ArithFunc` value. -/
inductive ArithOp where
  | add
  | sub
  | mul
  | floatDiv
  | div
  | mod
deriving DecidableEq, Repr

/-- Dispatch of `ArithFunc.Op`. -/
def arithFn : ArithOp → Value → Value → Except GoErr Value
  | .add => Add
  | .sub => Sub
  | .mul => Mul
  | .floatDiv => FloatDiv
  | .div => Div
  | .mod => Mod

/-- The `Function` objects of src/unnamed/part_003, as a closed
enumeration. -/
inductive Func where
  | arrayF
  | subscriptF
  | generateSeriesF
  | encodeF (enc : Encoding)
  | decodeF (enc : Encoding)
  | panicF
  | negF
  | compareF (lt eq gt : Bool)
  | isF
  | isNotF
  | notF
  | bitNotF
  | bitwiseF (op : Op)
  | logicalAndF
  | logicalOrF
  | arithF (op : ArithOp)
  | greatestF
  | leastF
  | roundF
  | coalesceF
  | lastF
  | randRangeF
  | randRangeInclusiveF
  | randUniformF
  | randUniformInclusiveF
  | randZipfF
  | randLogNormalF
  | randBoolF
  | randFiniteF32F
  | randFiniteF64F
  | randU31TimestampF
  | randUuidF
  | randRegexF
  | randShuffleF
  | substringF (unit : StringUnit)
  | charLengthF
  | octetLengthF
  | overlayF (unit : StringUnit)
  | concatF
  | timestampF
  | timestampTzF
deriving DecidableEq, Repr

/-- `Function.NumArgs`: fixed arity, or -1 for variadic.  `IsFunc`,
`LogicalAndFunc`, `LogicalOrFunc` and `LastFunc` embed no arity in the
source and are never registered; they answer 0 here. -/
def numArgs : Func → Int
  | .arrayF => -1
  | .subscriptF => 2
  | .generateSeriesF => -1
  | .encodeF _ => 1
  | .decodeF _ => 1
  | .panicF => -1
  | .negF => 1
  | .compareF _ _ _ => 2
  | .isF => 0
  | .isNotF => 1
  | .notF => 1
  | .bitNotF => 1
  | .bitwiseF _ => 2
  | .logicalAndF => 0
  | .logicalOrF => 0
  | .arithF _ => 2
  | .greatestF => -1
  | .leastF => -1
  | .roundF => 1
  | .coalesceF => -1
  | .lastF => 0
  | .randRangeF => 2
  | .randRangeInclusiveF => 2
  | .randUniformF => 2
  | .randUniformInclusiveF => 2
  | .randZipfF => 2
  | .randLogNormalF => 2
  | .randBoolF => 0
  | .randFiniteF32F => 0
  | .randFiniteF64F => 0
  | .randU31TimestampF => 0
  | .randUuidF => 0
  | .randRegexF => 1
  | .randShuffleF => 1
  | .substringF _ => -1
  | .charLengthF => 1
  | .octetLengthF => 1
  | .overlayF _ => -1
  | .concatF => 2
  | .timestampF => 1
  | .timestampTzF => 1

/-- The `GenericFuncs` registry. -/
def genericFuncs (name : GoStr) : Option Func :=
  if name = str "generate_series" then some .generateSeriesF
  else if name = str "encode.hex" then some (.encodeF .hex)
  else if name = str "encode.base64" then some (.encodeF .base64)
  else if name = str "decode.hex" then some (.decodeF .hex)
  else if name = str "decode.base64" then some (.decodeF .base64)
  else if name = str "debug.panic" then some .panicF
  else if name = str "least" then some .leastF
  else if name = str "greatest" then some .greatestF
  else if name = str "round" then some .roundF
  else if name = str "div" then some (.arithF .div)
  else if name = str "mod" then some (.arithF .mod)
  else if name = str "coalesce" then some .coalesceF
  else if name = str "rand.range" then some .randRangeF
  else if name = str "rand.range_inclusive" then some .randRangeInclusiveF
  else if name = str "rand.uniform" then some .randUniformF
  else if name = str "rand.uniform_inclusive" then some .randUniformInclusiveF
  else if name = str "rand.zipf" then some .randZipfF
  else if name = str "rand.log_normal" then some .randLogNormalF
  else if name = str "rand.bool" then some .randBoolF
  else if name = str "rand.finite_f32" then some .randFiniteF32F
  else if name = str "rand.finite_f64" then some .randFiniteF64F
  else if name = str "rand.u31_timestamp" then some .randU31TimestampF
  else if name = str "rand.uuid" then some .randUuidF
  else if name = str "rand.regex" then some .randRegexF
  else if name = str "rand.shuffle" then some .randShuffleF
  else if name = str "char_length" then some .charLengthF
  else if name = str "octet_length" then some .octetLengthF
  else none

/-- The `UnaryFuncs` registry. -/
def unaryFuncs : Op → Option Func
  | .sub => some .negF
  | .not => some .notF
  | .isNot => some .isNotF
  | .bitNot => some .bitNotF
  | _ => none

/-- The `BinaryFuncs` registry. -/
def binaryFuncs : Op → Option Func
  | .lt => some (.compareF true false false)
  | .le => some (.compareF true true false)
  | .eq => some (.compareF false true false)
  | .ne => some (.compareF true false true)
  | .gt => some (.compareF false false true)
  | .ge => some (.compareF false true true)
  | .bitAnd => some (.bitwiseF .bitAnd)
  | .bitOr => some (.bitwiseF .bitOr)
  | .bitXor => some (.bitwiseF .bitXor)
  | .add => some (.arithF .add)
  | .sub => some (.arithF .sub)
  | .mul => some (.arithF .mul)
  | .floatDiv => some (.arithF .floatDiv)
  | .concat => some .concatF
  | _ => none

/-- The compiled expression tree (src/eval.go).  The `value` field of
`setVariable` is a Go interface that `CompileExpr` leaves nil, hence the
`Option`.  The payload of `RandRegex` and the other random nodes is
irrelevant here: the source never constructs them (their functions are
unimplemented). -/
inductive Compiled where
  | rowNum
  | subRowNum
  | constant (value : Value)
  | rawFunction (fn : Func) (args : List Compiled)
  | getVariable (index : Nat)
  | setVariable (index : Nat) (value : Option Compiled)
  | caseValueWhen (value : Compiled) (whens : List (Compiled × Compiled)) (els : Compiled)
  | randRegex
  | randUniformU64
  | randUniformI64
  | randUniformF64
  | randZipf
  | randLogNormal
  | randBool
  | randFinite32
  | randFinite64
  | randU31Timestamp
  | randShuffle
  | randUuid

/-- `IsConstant`. -/
def IsConstant : Compiled → Bool
  | .constant _ => true
  | _ => false

/-- `CompileContext`: only the fields consumed by the embedded code are
kept (time zone and its cache feed exclusively the unmodelled timestamp
parsing). -/
structure Ctx where
  currentTimestamp : Int
  vars : List (GoStr × Value)

/-- Evaluation `State`.  The RNG source is consumed only by the
unimplemented random generators and is omitted. -/
structure State where
  rowNum : Int
  subRowNum : Int
  ctx : Ctx

/-- The loop of `GenerateSeriesFunc.Compile`: extend the series while the
comparison with `stop` does not reach the step's sign. -/
def genSeriesLoop (stop step : Value) (stepSign : Int) :
    Nat → Value → List Value → Except GoErr (List Value)
  | 0, _, _ => .error .outOfFuel
  | fuel + 1, value, acc =>
    match Cmp (fuel + 1) value stop with
    | .error e => .error e
    | .ok (cmp, isNull) =>
      if isNull ∨ cmp = stepSign then .ok acc
      else
        match Add value step with
        | .error e => .error e
        | .ok next => genSeriesLoop stop step stepSign fuel next (acc ++ [value])

/-- `Function.Compile` for every function object.  Functions the source
leaves as `panic("unimplemented")` are folded to `goPanic`; out-of-range
argument indexing is the corresponding Go runtime panic. -/
def fnCompile (fuel : Nat) (_ctx : Ctx) : Func → List Value → Except GoErr Compiled
  | .arrayF, args => .ok (.constant (MakeArray args))
  | .subscriptF, args =>
    match args with
    | [base, idx] =>
      (match AsArray base with
       | .error e => .error e
       | .ok xs =>
         match kind idx with
         | none => .error (.goPanic "nil pointer dereference")
         | some k =>
           if k ≠ .int then
             .error (.errorf ("subscript must be an integer, got " ++ k.str))
           else if !IsInt64 idx then .ok (.constant .null)
           else
             match AsInt64 idx with
             | .error e => .error e
             | .ok i =>
               if i ≤ 0 ∨ i > (xs.length : Int) then .ok (.constant .null)
               else .ok (.constant (xs.getD (i - 1).toNat .goNil)))
    | _ => .error (.goPanic "index out of range")
  | .generateSeriesF, args =>
    if args.length < 2 then
      .error (.errorf ("generate_series requires at least 2 arguments, got "
        ++ toString args.length))
    else if args.length > 3 then
      .error (.errorf ("generate_series requires at most 3 arguments, got "
        ++ toString args.length))
    else
      match args with
      | start :: stop :: restArgs =>
        let stepAndSign : Except GoErr (Value × Int) :=
          match restArgs with
          | [stepArg] =>
            (match Sign stepArg with
             | none => .error .unmodelledFloat
             | some 0 => .error (.errorf "generate_series step cannot be zero")
             | some sg => .ok (stepArg, sg))
          | _ => .ok (MakeInt64 1, 1)
        match stepAndSign with
        | .error e => .error e
        | .ok (step, stepSign) =>
          match genSeriesLoop stop step stepSign (fuel + 1) start [] with
          | .error e => .error e
          | .ok result => .ok (.constant (MakeArray result))
      | _ => .error (.goPanic "index out of range")
  | .encodeF enc, args =>
    match args with
    | [a] =>
      (match AsBytes a with
       | .error e => .error e
       | .ok src => .ok (.constant (MakeBytes (encodeBytes enc src))))
    | _ => .error (.goPanic "index out of range")
  | .decodeF enc, args =>
    match args with
    | [a] =>
      (match AsBytes a with
       | .error e => .error e
       | .ok src =>
         match decodeBytes enc src with
         | .error e => .error e
         | .ok dst => .ok (.constant (MakeBytes dst)))
    | _ => .error (.goPanic "index out of range")
  | .panicF, args =>
    .error (.errorf ("runtime panic: " ++ String.join
      (args.enum.map (fun p => toString p.1 ++ ". " ++ valueStr fuel p.2))))
  | .negF, args =>
    match args with
    | [a] =>
      (match Neg a with
       | .error e => .error e
       | .ok v => .ok (.constant v))
    | _ => .error (.goPanic "index out of range")
  | .compareF lt eq gt, args =>
    match args with
    | [a, b] =>
      (match Cmp (fuel + 1) a b with
       | .error e => .error e
       | .ok (_, true) => .ok (.constant .null)
       | .ok (cmp, false) =>
         if cmp = -1 then .ok (.constant (MakeBool lt))
         else if cmp = 0 then .ok (.constant (MakeBool eq))
         else .ok (.constant (MakeBool gt)))
    | _ => .error (.goPanic "index out of range")
  | .bitwiseF op, args =>
    match args with
    | [a, b] =>
      if isNullV a ∨ isNullV b then .ok (.constant .null)
      else if IsInt64 a ∧ IsInt64 b then
        -- the source discards the (impossible) conversion errors here
        let x := ((AsInt64 a).toOption).getD 0
        let y := ((AsInt64 b).toOption).getD 0
        match op with
        | .bitAnd => .ok (.constant (MakeInt64 (Int.land x y)))
        | .bitOr => .ok (.constant (MakeInt64 (Int.lor x y)))
        | .bitXor => .ok (.constant (MakeInt64 (Int.xor x y)))
        | _ => .error (.errorf ("unknown bitwise operator: " ++ op.str))
      else
        match AsInt a with
        | .error e => .error e
        | .ok x =>
          match AsInt b with
          | .error e => .error e
          | .ok y =>
            match op with
            | .bitAnd => .ok (.constant (MakeInt (Int.land x y)))
            | .bitOr => .ok (.constant (MakeInt (Int.lor x y)))
            | .bitXor => .ok (.constant (MakeInt (Int.xor x y)))
            | _ => .error (.errorf ("unknown bitwise operator: " ++ op.str))
    | _ => .error (.goPanic "index out of range")
  | .arithF op, args =>
    match args with
    | [a, b] =>
      (match arithFn op a b with
       | .error e => .error e
       | .ok v => .ok (.constant v))
    | _ => .error (.goPanic "index out of range")
  | .timestampF, _ => .error (.unmodelled "time.ParseInLocation")
  | .timestampTzF, _ => .error (.unmodelled "time.ParseInLocation")
  | _, _ => .error (.goPanic "unimplemented")

end Core

end Dbgen

namespace Dbgen

namespace Core

open Constant Tmpl

/-- `Compiled.Eval` (src/eval.go).  The state pointer may be Go nil
(`none`), as in the constant folding of CASE.  Fuel is consumed by one on
every nested evaluation; the loops over argument and WHEN lists are
expressed as folds whose accumulator carries the early exit.

The CASE arm is the one part of the evaluator the source leaves as
`panic("unimplemented")`.  Modelled from the spec: evaluate `value`, scan
the whens in order, on the first cond whose equality with `value` (or,
when `value` is NULL, whose boolean truth) is TRUE evaluate and return
its `then`, otherwise evaluate `else`; later conds are not evaluated. -/
def evalC : Nat → Compiled → Option State → Except GoErr (Value × Option State)
  | 0, _, _ => .error .outOfFuel
  | fuel + 1, c, st =>
    match c with
    | .rowNum =>
      match st with
      | none => .error (.goPanic "nil pointer dereference")
      | some s => .ok (MakeInt64 s.rowNum, st)
    | .subRowNum =>
      match st with
      | none => .error (.goPanic "nil pointer dereference")
      | some s => .ok (MakeInt64 s.subRowNum, st)
    | .constant v => .ok (v, st)
    | .rawFunction fn args =>
      let folded : Except GoErr (List Value × Option State) :=
        args.foldl
          (fun acc a =>
            match acc with
            | .error e => .error e
            | .ok (vals, st1) =>
              match evalC fuel a st1 with
              | .error e => .error e
              | .ok (v, st2) => .ok (vals ++ [v], st2))
          (.ok ([], st))
      (match folded with
       | .error e => .error e
       | .ok (vals, st1) =>
         match st1 with
         | none => .error (.goPanic "nil pointer dereference")
         | some s1 =>
           match fnCompile fuel s1.ctx fn vals with
           | .error e => .error e
           | .ok c2 => evalC fuel c2 st1)
    | .getVariable idx =>
      match st with
      | none => .error (.goPanic "nil pointer dereference")
      | some s =>
        match s.ctx.vars.get? idx with
        | none => .error (.goPanic "index out of range")
        | some p => .ok (p.2, st)
    | .setVariable idx value =>
      match value with
      | none => .error (.goPanic "nil pointer dereference")
      | some child =>
        match evalC fuel child st with
        | .error e => .error e
        | .ok (v, st1) =>
          match st1 with
          | none => .error (.goPanic "nil pointer dereference")
          | some s1 =>
            match s1.ctx.vars.get? idx with
            | none => .error (.goPanic "index out of range")
            | some p =>
              .ok (v, some { s1 with
                ctx := { s1.ctx with vars := s1.ctx.vars.set idx (p.1, v) } })
    | .caseValueWhen value whens els =>
      (match evalC fuel value st with
       | .error e => .error e
       | .ok (v, st1) =>
         let scanned : Except GoErr (Option Value × Option State) :=
           whens.foldl
             (fun acc w =>
               match acc with
               | .error e => .error e
               | .ok (some r, st2) => .ok (some r, st2)
               | .ok (none, st2) =>
                 match evalC fuel w.1 st2 with
                 | .error e => .error e
                 | .ok (cv, st3) =>
                   if isNullV v then
                     match AsBool cv with
                     | .error e => .error e
                     | .ok b =>
                       if b then
                         match evalC fuel w.2 st3 with
                         | .error e => .error e
                         | .ok (tv, st4) => .ok (some tv, st4)
                       else .ok (none, st3)
                   else
                     match Cmp fuel v cv with
                     | .error e => .error e
                     | .ok (r, isNull) =>
                       if r = 0 ∧ ¬isNull then
                         match evalC fuel w.2 st3 with
                         | .error e => .error e
                         | .ok (tv, st4) => .ok (some tv, st4)
                       else .ok (none, st3))
             (.ok (none, st1))
         match scanned with
         | .error e => .error e
         | .ok (some r, st2) => .ok (r, st2)
         | .ok (none, st2) => evalC fuel els st2)
    | _ => .error (.goPanic "unimplemented")

/-- The tail of `compileRawFunction` after the children are compiled:
fold to the function's own compilation when every child is constant,
otherwise build a `RawFunction` node. -/
def compileRawFnStep (fuel : Nat) (ctx : Ctx) (fn : Func)
    (compiledArgs : List Compiled) : Except GoErr Compiled :=
  if compiledArgs.all IsConstant then
    let constArgs := compiledArgs.map (fun c =>
      match c with
      | .constant v => v
      | _ => .goNil)
    fnCompile fuel ctx fn constArgs
  else .ok (.rawFunction fn compiledArgs)

/-- The tail of `compileCaseValueWhen` after the children are compiled:
if every sub-tree is constant, evaluate once (with a nil state, as the
source does) and collapse to `Constant`. -/
def compileCaseStep (fuel : Nat) (value : Compiled)
    (whens : List (Compiled × Compiled)) (els : Compiled) :
    Except GoErr Compiled :=
  let compiled := Compiled.caseValueWhen value whens els
  if IsConstant value ∧ whens.all (fun w => IsConstant w.1 && IsConstant w.2)
      ∧ IsConstant els then
    match evalC fuel compiled none with
    | .error e => .error e
    | .ok (v, _) => .ok (.constant v)
  else .ok compiled

/-- `QName.String()`: original parts joined with dots. -/
def qnameStr (q : QName) : String :=
  String.mk (joinSep (str ".") (q.parts.map (fun p => p.o)))

/-- `CompileContext.CompileExpr` (src/eval.go).  The argument loop of
`compileRawFunction` (with its Go-nil argument defaulting) and the child
compilation of `compileCaseValueWhen` are inlined as folds; their tails
are `compileRawFnStep` and `compileCaseStep`.  Note the SetVariable case:
like the source, it resolves only the variable index and never compiles
`expr.Value`, leaving the compiled node's value field nil. -/
def compileExpr : Nat → Ctx → Tmpl.Expr → Except GoErr (Compiled × Ctx)
  | 0, _, _ => .error .outOfFuel
  | fuel + 1, ctx, e =>
    let compileArgsFold : Ctx → List (Option Tmpl.Expr) →
        Except GoErr (List Compiled × Ctx) := fun ctx0 argL =>
      argL.foldl
        (fun acc arg =>
          match acc with
          | .error err => .error err
          | .ok (cs, ctx1) =>
            match arg with
            | none => .ok (cs ++ [.constant .null], ctx1)
            | some a =>
              match compileExpr fuel ctx1 a with
              | .error err => .error err
              | .ok (c, ctx2) => .ok (cs ++ [c], ctx2))
        (.ok ([], ctx0))
    let rawFn : Ctx → Func → List (Option Tmpl.Expr) →
        Except GoErr (Compiled × Ctx) := fun ctx0 fn argL =>
      match compileArgsFold ctx0 argL with
      | .error err => .error err
      | .ok (cs, ctx1) =>
        match compileRawFnStep fuel ctx1 fn cs with
        | .error err => .error err
        | .ok c => .ok (c, ctx1)
    match e with
    | .rowNum => .ok (.rowNum, ctx)
    | .subRowNum => .ok (.subRowNum, ctx)
    | .currentTimestamp => .ok (.constant (MakeTimestamp ctx.currentTimestamp), ctx)
    | .constant v => .ok (.constant v, ctx)
    | .getVariable name =>
      (match ctx.vars.findIdx? (fun v => v.1 = name) with
       | some idx => .ok (.getVariable idx, ctx)
       | none =>
         .ok (.getVariable ctx.vars.length,
              { ctx with vars := ctx.vars ++ [(name, .null)] }))
    | .setVariable name _value =>
      (match ctx.vars.findIdx? (fun v => v.1 = name) with
       | some idx => .ok (.setVariable idx none, ctx)
       | none =>
         .ok (.setVariable ctx.vars.length none,
              { ctx with vars := ctx.vars ++ [(name, .null)] }))
    | .unary op child =>
      (match unaryFuncs op with
       | none => .error (.errorf ("unknown unary operator: " ++ op.str))
       | some fn => rawFn ctx fn [some child])
    | .binary op l r =>
      (match binaryFuncs op with
       | none => .error (.errorf ("unknown binary operator: " ++ op.str))
       | some fn => rawFn ctx fn [some l, some r])
    | .paren inner => compileExpr fuel ctx inner
    | .func name args =>
      (match genericFuncs (UniqueName name) with
       | none => .error (.errorf ("unknown function: " ++ qnameStr name))
       | some fn =>
         if numArgs fn ≥ 0 ∧ (args.length : Int) ≠ numArgs fn then
           .error (.errorf ("wrong number of arguments for function "
             ++ qnameStr name ++ ": expected " ++ toString (numArgs fn)
             ++ ", got " ++ toString args.length))
         else rawFn ctx fn (args.map some))
    | .caseValueWhen value whens els =>
      let cValue : Except GoErr (Compiled × Ctx) :=
        match value with
        | some vE => compileExpr fuel ctx vE
        | none => .ok (.constant .null, ctx)
      (match cValue with
       | .error err => .error err
       | .ok (cv, ctx1) =>
         let cWhens : Except GoErr (List (Compiled × Compiled) × Ctx) :=
           whens.foldl
             (fun acc w =>
               match acc with
               | .error err => .error err
               | .ok (ws, ctxA) =>
                 match compileExpr fuel ctxA w.1 with
                 | .error err => .error err
                 | .ok (cCond, ctxB) =>
                   match compileExpr fuel ctxB w.2 with
                   | .error err => .error err
                   | .ok (cThen, ctxC) => .ok (ws ++ [(cCond, cThen)], ctxC))
             (.ok ([], ctx1))
         match cWhens with
         | .error err => .error err
         | .ok (cws, ctx2) =>
           let cElse : Except GoErr (Compiled × Ctx) :=
             match els with
             | some eE => compileExpr fuel ctx2 eE
             | none => .ok (.constant .null, ctx2)
           match cElse with
           | .error err => .error err
           | .ok (ce, ctx3) =>
             match compileCaseStep fuel cv cws ce with
             | .error err => .error err
             | .ok c => .ok (c, ctx3))
    | .timestampLit withTz value =>
      rawFn ctx (if withTz then .timestampTzF else .timestampF) [some value]
    | .intervalLit unit value =>
      -- fn := BinaryFuncs[template.OpMul]
      rawFn ctx (.arithF .mul)
        [some value, some (.constant (MakeInterval unit))]
    | .arrayLit elems => rawFn ctx .arrayF (elems.map some)
    | .subscript base index => rawFn ctx .subscriptF [some base, some index]
    | .substringE input from_ for_ unit =>
      rawFn ctx (.substringF unit) [some input, from_, for_]
    | .overlayE input placing from_ for_ unit =>
      rawFn ctx (.overlayF unit) [some input, some placing, from_, for_]

end Core

end Dbgen

namespace Dbgen

namespace Core

open Constant

/-- Reference selection semantics of a constant CASE: the first `when`
whose condition equals the value (boolean truth when the value is NULL)
wins, otherwise the else value.  Mirrors the spec's short-circuit rule. -/
def caseSelect (fuel : Nat) (v : Value) :
    List (Value × Value) → Value → Except GoErr Value
  | [], e => .ok e
  | (c, t) :: rest, e =>
    if isNullV v then
      match AsBool c with
      | .error err => .error err
      | .ok b => if b then .ok t else caseSelect fuel v rest e
    else
      match Cmp fuel v c with
      | .error err => .error err
      | .ok (r, isNull) =>
        if r = 0 ∧ ¬isNull then .ok t else caseSelect fuel v rest e

/-- The number of elements `generate_series(a, b, s)` produces
(`sg` is the sign of the nonzero step). -/
def seriesCount (a b s : Int) : Nat :=
  let sg := numberCmp s 0
  if sg * (b - a) < 0 then 0 else ((sg * (b - a)) / (sg * s)).toNat + 1

end Core

end Dbgen

namespace Dbgen

namespace Tmpl

/-- The character code of a literal, as Go's `int` of a byte. -/
def ci (c : Char) : Int := c.toNat

/-- Byte of a string at an index, or -1 (eof) when out of range. -/
def byteAt (s : GoStr) (i : Nat) : Int :=
  match s.get? i with
  | none => -1
  | some c => c.toNat

/-- `s[a:b]` on byte indices (well-formed slices only in this
development). -/
def slice (s : GoStr) (a b : Nat) : GoStr := (s.drop a).take (b - a)

/-- Relative position of the first occurrence of `pat`
(`strings.Index`), or -1. -/
def goIndexAux (pat : GoStr) : GoStr → Int
  | [] => if pat.isPrefixOf ([] : GoStr) then 0 else -1
  | c :: rest =>
    if pat.isPrefixOf (c :: rest) then 0
    else
      let r := goIndexAux pat rest
      if r = -1 then -1 else r + 1

/-- `strings.Index(s, pat)`. -/
def goIndex (s pat : GoStr) : Int := goIndexAux pat s

/-- `strings.LastIndexByte`. -/
def goLastIndexByte (s : GoStr) (c : Char) : Int :=
  match s.reverse.findIdx? (fun x => x = c) with
  | none => -1
  | some k => (s.length : Int) - 1 - k

/-- `strings.IndexByte`. -/
def goIndexByte (s : GoStr) (c : Char) : Int :=
  match s.findIdx? (fun x => x = c) with
  | none => -1
  | some k => (k : Int)

/-- `template.tokenType` (src/unnamed/part_001). -/
inductive TokType where
  | tokError
  | tokEOF
  | tokChar
  | tokComment
  | tokIdent
  | tokString
  | tokNumber
  | tokLeftDelim
  | tokRightDelim
  | tokLeftParen
  | tokRightParen
  | tokLeftBrack
  | tokRightBrack
  | tokLeftBrace
  | tokRightBrace
  | tokComma
  | tokPeriod
  | tokAt
  | tokAssign
  | tokLT
  | tokLE
  | tokEQ
  | tokNE
  | tokGT
  | tokGE
  | tokConcat
  | tokAdd
  | tokSub
  | tokMul
  | tokFloatDiv
  | tokBitAnd
  | tokBitOr
  | tokBitXor
  | tokBitNot
  | tokSemicolon
  | tokCreate
  | tokTable
  | tokOr
  | tokAnd
  | tokNot
  | tokIs
  | tokRowNum
  | tokSubRowNum
  | tokNull
  | tokTrue
  | tokFalse
  | tokCase
  | tokWhen
  | tokThen
  | tokElse
  | tokEnd
  | tokTimestamp
  | tokInterval
  | tokWeek
  | tokDay
  | tokHour
  | tokMinute
  | tokSecond
  | tokMillisecond
  | tokMicrosecond
  | tokWith
  | tokTime
  | tokZone
  | tokSubstring
  | tokFrom
  | tokFor
  | tokUsing
  | tokCharacters
  | tokOctets
  | tokOverlay
  | tokPlacing
  | tokCurrentTimestamp
  | tokArray
  | tokEach
  | tokRow
  | tokOf
  | tokGenerate
  | tokRows
  | tokX
deriving DecidableEq, Repr

/-- A lexed token with position information. -/
structure Token where
  typ : TokType
  pos : Nat
  val : GoStr
  line : Nat
  col : Int
deriving DecidableEq, Repr

/-- `token.Op`. -/
def tokOp (t : TokType) : Op :=
  match t with
  | .tokAssign => .assign
  | .tokLT => .lt
  | .tokLE => .le
  | .tokEQ => .eq
  | .tokNE => .ne
  | .tokGT => .gt
  | .tokGE => .ge
  | .tokConcat => .concat
  | .tokAdd => .add
  | .tokSub => .sub
  | .tokMul => .mul
  | .tokFloatDiv => .floatDiv
  | .tokBitAnd => .bitAnd
  | .tokBitOr => .bitOr
  | .tokBitXor => .bitXor
  | .tokBitNot => .bitNot
  | .tokSemicolon => .semicolon
  | .tokOr => .or
  | .tokAnd => .and
  | .tokNot => .not
  | .tokIs => .is
  | _ => .invalid

/-- The lexer keyword table. -/
def keywords (s : GoStr) : Option TokType :=
  if s = str "create" then some .tokCreate
  else if s = str "table" then some .tokTable
  else if s = str "or" then some .tokOr
  else if s = str "and" then some .tokAnd
  else if s = str "not" then some .tokNot
  else if s = str "is" then some .tokIs
  else if s = str "rownum" then some .tokRowNum
  else if s = str "subrownum" then some .tokSubRowNum
  else if s = str "null" then some .tokNull
  else if s = str "true" then some .tokTrue
  else if s = str "false" then some .tokFalse
  else if s = str "case" then some .tokCase
  else if s = str "when" then some .tokWhen
  else if s = str "then" then some .tokThen
  else if s = str "else" then some .tokElse
  else if s = str "end" then some .tokEnd
  else if s = str "timestamp" then some .tokTimestamp
  else if s = str "interval" then some .tokInterval
  else if s = str "week" then some .tokWeek
  else if s = str "day" then some .tokDay
  else if s = str "hour" then some .tokHour
  else if s = str "minute" then some .tokMinute
  else if s = str "second" then some .tokSecond
  else if s = str "millisecond" then some .tokMillisecond
  else if s = str "microsecond" then some .tokMicrosecond
  else if s = str "with" then some .tokWith
  else if s = str "time" then some .tokTime
  else if s = str "zone" then some .tokZone
  else if s = str "substring" then some .tokSubstring
  else if s = str "from" then some .tokFrom
  else if s = str "for" then some .tokFor
  else if s = str "using" then some .tokUsing
  else if s = str "characters" then some .tokCharacters
  else if s = str "octets" then some .tokOctets
  else if s = str "overlay" then some .tokOverlay
  else if s = str "placing" then some .tokPlacing
  else if s = str "current_timestamp" then some .tokCurrentTimestamp
  else if s = str "array" then some .tokArray
  else if s = str "each" then some .tokEach
  else if s = str "row" then some .tokRow
  else if s = str "of" then some .tokOf
  else if s = str "generate" then some .tokGenerate
  else if s = str "rows" then some .tokRows
  else if s = str "x" then some .tokX
  else none

/-- `token.isIdent`: every keyword is unreserved. -/
def isIdentTok (t : Token) : Bool :=
  (keywords (goToLower t.val)).isSome || t.typ = .tokIdent

/-- `specialChars`. -/
def specialChars (ch : Int) : Option TokType :=
  if ch = ci '(' then some .tokLeftParen
  else if ch = ci ')' then some .tokRightParen
  else if ch = ci '[' then some .tokLeftBrack
  else if ch = ci ']' then some .tokRightBrack
  else if ch = ci '{' then some .tokLeftBrace
  else if ch = ci '}' then some .tokRightBrace
  else if ch = ci ';' then some .tokSemicolon
  else if ch = ci ',' then some .tokComma
  else if ch = ci '<' then some .tokLT
  else if ch = ci '>' then some .tokGT
  else if ch = ci '=' then some .tokEQ
  else if ch = ci '&' then some .tokBitAnd
  else if ch = ci '|' then some .tokBitOr
  else if ch = ci '^' then some .tokBitXor
  else if ch = ci '~' then some .tokBitNot
  else if ch = ci '+' then some .tokAdd
  else if ch = ci '-' then some .tokSub
  else if ch = ci '*' then some .tokMul
  else if ch = ci '/' then some .tokFloatDiv
  else if ch = ci '.' then some .tokPeriod
  else if ch = ci '@' then some .tokAt
  else none

def isSpaceB (ch : Int) : Bool :=
  ch = ci ' ' ∨ ch = ci '\t' ∨ ch = 11 ∨ ch = 12

def isWhitespaceB (ch : Int) : Bool :=
  ch = ci ' ' ∨ ch = ci '\t' ∨ ch = 13 ∨ ch = 10 ∨ ch = 11 ∨ ch = 12

def isDigitB (ch : Int) : Bool := ci '0' ≤ ch ∧ ch ≤ ci '9'

def isHexDigitB (ch : Int) : Bool :=
  (ci '0' ≤ ch ∧ ch ≤ ci '9') ∨ (ci 'a' ≤ ch ∧ ch ≤ ci 'f')
    ∨ (ci 'A' ≤ ch ∧ ch ≤ ci 'F')

def isIdentStartB (ch : Int) : Bool :=
  (ci 'A' ≤ ch ∧ ch ≤ ci 'Z') ∨ (ci 'a' ≤ ch ∧ ch ≤ ci 'z')
    ∨ ch = ci '_' ∨ (128 ≤ ch ∧ ch ≤ 255)

def isIdentMiddleB (ch : Int) : Bool :=
  isIdentStartB ch ∨ (ci '0' ≤ ch ∧ ch ≤ ci '9')

/-- The lexer state (struct `lexer`). -/
structure LexState where
  inp : GoStr
  pos : Nat
  line : Nat
  linePos : Int
  start : Nat
  startLine : Nat
  startCol : Int
  insideBlock : Bool
deriving Repr

/-- `newLexer`. -/
def newLexer (inp : GoStr) : LexState :=
  { inp := inp, pos := 0, line := 1, linePos := -1, start := 0,
    startLine := 1, startCol := 1, insideBlock := false }

/-- `lexer.peek`. -/
def lpeek (l : LexState) : Int := byteAt l.inp l.pos

/-- `lexer.peekN`. -/
def lpeekN (l : LexState) (n : Nat) : Int :=
  if l.pos + n ≥ l.inp.length then -1 else byteAt l.inp (l.pos + n)

/-- `lexer.next`: returns the consumed character and updates line
accounting. -/
def lnext (l : LexState) : Int × LexState :=
  let ch := lpeek l
  let l1 := if ch = ci '\n'
    then { l with line := l.line + 1, linePos := (l.pos : Int) } else l
  let l2 := if l1.pos < l1.inp.length then { l1 with pos := l1.pos + 1 } else l1
  (ch, l2)

/-- `lexer.advance`. -/
def ladvance : Nat → LexState → LexState
  | 0, l => l
  | n + 1, l => ladvance n (lnext l).2

/-- `lexer.skipWhitespace`: the fuel (always at least the remaining
length plus one at call sites) cannot run out because each step consumes
one character and eof is not whitespace. -/
def skipWhitespaceF : Nat → LexState → LexState
  | 0, l => l
  | f + 1, l =>
    if isWhitespaceB (lpeek l) then skipWhitespaceF f (lnext l).2 else l

/-- `lexer.accept`, fueled like `skipWhitespaceF`. -/
def acceptF (pred : Int → Bool) : Nat → LexState → LexState
  | 0, l => l
  | f + 1, l => if pred (lpeek l) then acceptF pred f (lnext l).2 else l

/-- `lexer.emit`. -/
def lemit (t : TokType) (l : LexState) : Token × LexState :=
  (⟨t, l.start, slice l.inp l.start l.pos, l.startLine, l.startCol⟩,
   { l with start := l.pos, startLine := l.line,
            startCol := (l.pos : Int) - l.linePos })

/-- `lexer.errorf`: emit a terminal error token and reset the lexer. -/
def lerror (msg : GoStr) (l : LexState) : Token × LexState :=
  (⟨.tokError, l.start, msg, l.startLine, l.startCol⟩, newLexer [])

/-- `lexer.lexChar`. -/
def lexChar (l : LexState) : Token × LexState :=
  let (ch, l1) := lnext l
  match specialChars ch with
  | some t => lemit t l1
  | none => lemit .tokChar l1

/-- `lexer.lexTwoChars`. -/
def lexTwoChars (t : TokType) (l : LexState) : Token × LexState :=
  lemit t (ladvance 2 l)

/-- `lexer.lexLeftDelim`. -/
def lexLeftDelim (l : LexState) : Token × LexState :=
  if lpeek l = ci '/' then
    lemit .tokLeftDelim { l with pos := l.pos + 4, insideBlock := true }
  else
    lemit .tokLeftDelim { l with pos := l.pos + 2 }

/-- `lexer.lexRightDelim`. -/
def lexRightDelim (l : LexState) : Token × LexState :=
  if l.insideBlock then
    lemit .tokRightDelim { l with pos := l.pos + 4, insideBlock := false }
  else
    lemit .tokRightDelim { l with pos := l.pos + 2 }

/-- The end-of-line scan of a `--` comment. -/
def lexLineComment : Nat → LexState → Token × LexState
  | 0, l => lemit .tokComment l
  | f + 1, l =>
    let (ch, l1) := lnext l
    if ch = -1 ∨ ch = ci '\n' then lemit .tokComment l1
    else lexLineComment f l1

/-- `lexer.lexComment` (src/unnamed/part_001): decides between an
ordinary comment and a commented statement block `/*{{ … }}*/`.  The
final branch is unreachable from `lex` (the caller guarantees `-` or
`/`); the Go code panics there. -/
def lexComment (l : LexState) : Token × LexState :=
  if lpeek l = ci '-' then
    lexLineComment (l.inp.length + 1) (ladvance 2 l)
  else if lpeek l = ci '/' then
    let rightCommentIdx := goIndex (l.inp.drop l.pos) (str "*/")
    if rightCommentIdx = -1 then lerror (str "unclosed comment") l
    else
      let leftAtDelim := (str "/*\x7b\x7b").isPrefixOf (l.inp.drop l.pos)
      let rightDelimIdx := goIndex (l.inp.drop l.pos) (str "\x7d\x7d*/")
      if leftAtDelim ∧ rightDelimIdx ≠ -1 ∧ rightDelimIdx + 2 = rightCommentIdx
      then lexLeftDelim l
      else
        let commentLen := rightCommentIdx.toNat + 2
        lemit .tokComment (ladvance commentLen l)
  else lerror (str "panic: unreachable") l

/-- The scan loop of `lexer.lexQuote`. -/
def lexQuoteLoop (ch0 : Int) : Nat → LexState → Token × LexState
  | 0, l => lerror (str "unterminated quoted string") l
  | f + 1, l =>
    let (ch, l1) := lnext l
    if ch = -1 then lerror (str "unterminated quoted string") l1
    else if ch = ch0 then
      if lpeek l1 = ch0 then lexQuoteLoop ch0 f (lnext l1).2
      else if ch0 = ci '`' ∨ ch0 = ci '"' then lemit .tokIdent l1
      else lemit .tokString l1
    else lexQuoteLoop ch0 f l1

/-- `lexer.lexQuote`. -/
def lexQuote (l : LexState) : Token × LexState :=
  let (ch0, l1) := lnext l
  lexQuoteLoop ch0 (l1.inp.length + 1) l1

/-- `lexer.lexIdent`. -/
def lexIdent (l : LexState) : Token × LexState :=
  let l1 := (lnext l).2
  let l2 := acceptF isIdentMiddleB (l1.inp.length + 1) l1
  match keywords (goToLower (slice l2.inp l2.start l2.pos)) with
  | some t => lemit t l2
  | none => lemit .tokIdent l2

/-- `lexer.lexNumber`. -/
def lexNumber (l : LexState) : Token × LexState :=
  let ch0 := lpeek l
  let ch1 := lpeekN l 1
  if ch0 = ci '0' ∧ (ch1 = ci 'x' ∨ ch1 = ci 'X') ∧ isHexDigitB (lpeekN l 2)
  then
    let l1 := { l with pos := l.pos + 3 }
    lemit .tokNumber (acceptF isHexDigitB (l1.inp.length + 1) l1)
  else
    let l1 := acceptF isDigitB (l.inp.length + 1) l
    let l2 := if lpeek l1 = ci '.'
      then acceptF isDigitB (l1.inp.length + 1) { l1 with pos := l1.pos + 1 }
      else l1
    let ch0b := lpeek l2
    let ch1b := lpeekN l2 1
    let ch2b := lpeekN l2 2
    let l3 :=
      if ch0b = ci 'e' ∨ ch0b = ci 'E' then
        if isDigitB ch1b then
          acceptF isDigitB (l2.inp.length + 1) { l2 with pos := l2.pos + 2 }
        else if (ch1b = ci '+' ∨ ch1b = ci '-') ∧ isDigitB ch2b then
          acceptF isDigitB (l2.inp.length + 1) { l2 with pos := l2.pos + 3 }
        else l2
      else l2
    lemit .tokNumber l3

/-- `lexer.lex`: the dispatch switch. -/
def lex (l0 : LexState) : Token × LexState :=
  let lw := skipWhitespaceF (l0.inp.length + 1) l0
  let l := { lw with start := lw.pos, startLine := lw.line,
                     startCol := (lw.pos : Int) - lw.linePos }
  let ch := lpeek l
  if ch = -1 then lemit .tokEOF l
  else if ch = ci '-' then
    if lpeekN l 1 = ci '-' then lexComment l else lexChar l
  else if ch = ci '/' then
    if l.insideBlock ∨ lpeekN l 1 ≠ ci '*' then lexChar l else lexComment l
  else if ch = ci '`' ∨ ch = ci '"' ∨ ch = ci '\'' then lexQuote l
  else if ch = ci '{' then
    if lpeekN l 1 = ci '{' then lexLeftDelim l else lexChar l
  else if ch = ci '}' then
    if lpeekN l 1 = ci '}' then lexRightDelim l else lexChar l
  else if ch = ci '|' then
    if lpeekN l 1 = ci '|' then lexTwoChars .tokConcat l else lexChar l
  else if ch = ci '<' then
    if lpeekN l 1 = ci '=' then lexTwoChars .tokLE l
    else if lpeekN l 1 = ci '>' then lexTwoChars .tokNE l
    else lexChar l
  else if ch = ci '>' then
    if lpeekN l 1 = ci '=' then lexTwoChars .tokGE l else lexChar l
  else if ch = ci '.' then
    if isDigitB (lpeekN l 1) then lexNumber l else lexChar l
  else if ch = ci ':' then
    if lpeekN l 1 = ci '=' then lexTwoChars .tokAssign l else lexChar l
  else if isDigitB ch then lexNumber l
  else if isIdentStartB ch then lexIdent l
  else lexChar l

/-- Run the lexer to completion (for concrete scenarios). -/
def lexAll : Nat → LexState → List Token
  | 0, _ => []
  | f + 1, l =>
    let (tok, l1) := lex l
    if tok.typ = .tokEOF ∨ tok.typ = .tokError then [tok]
    else tok :: lexAll f l1

end Tmpl

end Dbgen

namespace Dbgen

namespace Tmpl

open Constant

/-- Stringer names of the token types (`tokenType.String`). -/
def tokTypeStr (t : TokType) : String :=
  match t with
  | .tokError => "Error"
  | .tokEOF => "EOF"
  | .tokChar => "Char"
  | .tokComment => "Comment"
  | .tokIdent => "Ident"
  | .tokString => "String"
  | .tokNumber => "Number"
  | .tokLeftDelim => "LeftDelim"
  | .tokRightDelim => "RightDelim"
  | .tokLeftParen => "LeftParen"
  | .tokRightParen => "RightParen"
  | .tokLeftBrack => "LeftBrack"
  | .tokRightBrack => "RightBrack"
  | .tokLeftBrace => "LeftBrace"
  | .tokRightBrace => "RightBrace"
  | .tokComma => "Comma"
  | .tokPeriod => "Period"
  | .tokAt => "At"
  | .tokAssign => "Assign"
  | .tokLT => "LT"
  | .tokLE => "LE"
  | .tokEQ => "EQ"
  | .tokNE => "NE"
  | .tokGT => "GT"
  | .tokGE => "GE"
  | .tokConcat => "Concat"
  | .tokAdd => "Add"
  | .tokSub => "Sub"
  | .tokMul => "Mul"
  | .tokFloatDiv => "FloatDiv"
  | .tokBitAnd => "BitAnd"
  | .tokBitOr => "BitOr"
  | .tokBitXor => "BitXor"
  | .tokBitNot => "BitNot"
  | .tokSemicolon => "Semicolon"
  | .tokCreate => "Create"
  | .tokTable => "Table"
  | .tokOr => "Or"
  | .tokAnd => "And"
  | .tokNot => "Not"
  | .tokIs => "Is"
  | .tokRowNum => "RowNum"
  | .tokSubRowNum => "SubRowNum"
  | .tokNull => "Null"
  | .tokTrue => "True"
  | .tokFalse => "False"
  | .tokCase => "Case"
  | .tokWhen => "When"
  | .tokThen => "Then"
  | .tokElse => "Else"
  | .tokEnd => "End"
  | .tokTimestamp => "Timestamp"
  | .tokInterval => "Interval"
  | .tokWeek => "Week"
  | .tokDay => "Day"
  | .tokHour => "Hour"
  | .tokMinute => "Minute"
  | .tokSecond => "Second"
  | .tokMillisecond => "Millisecond"
  | .tokMicrosecond => "Microsecond"
  | .tokWith => "With"
  | .tokTime => "Time"
  | .tokZone => "Zone"
  | .tokSubstring => "Substring"
  | .tokFrom => "From"
  | .tokFor => "For"
  | .tokUsing => "Using"
  | .tokCharacters => "Characters"
  | .tokOctets => "Octets"
  | .tokOverlay => "Overlay"
  | .tokPlacing => "Placing"
  | .tokCurrentTimestamp => "CurrentTimestamp"
  | .tokArray => "Array"
  | .tokEach => "Each"
  | .tokRow => "Row"
  | .tokOf => "Of"
  | .tokGenerate => "Generate"
  | .tokRows => "Rows"
  | .tokX => "X"

/-- `token.String`: EOF, or the quoted lexeme (Go quoting of special
characters is not reproduced; only error-message text depends on it). -/
def tokStr (t : Token) : String :=
  if t.typ = .tokEOF then "EOF" else "\"" ++ String.mk t.val ++ "\""

/-- `SyntaxError`. -/
structure SyntaxErr where
  line : Nat
  col : Int
  near : GoStr
  cause : String
deriving DecidableEq, Repr

/-- Errors escaping the parser: syntax errors, or raw value errors
(`MakeNumberFromLiteral` failures propagate unwrapped in the source). -/
inductive PErr where
  | syn (e : SyntaxErr)
  | go (e : GoErr)

/-- The parser state: lexer, whole input, two-token look-ahead. -/
structure PState where
  lexst : LexState
  input : GoStr
  tok : Token
  tok1 : Token

/-- One lexer pull with `Comment` tokens silently skipped
(the comment loop inside `Parser.next`). -/
def lexSkipComments : Nat → LexState → Token × LexState
  | 0, l => lex l
  | f + 1, l =>
    let (t, l1) := lex l
    if t.typ = .tokComment then lexSkipComments f l1 else (t, l1)

/-- `Parser.next`. -/
def pNext (p : PState) : PState :=
  let (t, l1) := lexSkipComments (p.lexst.inp.length + 1) p.lexst
  { p with tok := p.tok1, tok1 := t, lexst := l1 }

/-- `Parser.init`. -/
def pInit (input : GoStr) : PState :=
  let dummy : Token := ⟨.tokError, 0, [], 0, 0⟩
  pNext (pNext { lexst := newLexer input, input := input,
                 tok := dummy, tok1 := dummy })

/-- `Parser.errorf` (with `maxNearContentLength = 10`). -/
def perrorf (p : PState) (cause : String) : PErr :=
  let near0 := p.input.drop p.tok.pos
  let near := if near0.length > 10 then near0.take 10 else near0
  .syn { line := p.tok.line, col := p.tok.col, near := near,
         cause := if p.tok.typ = .tokError then String.mk p.tok.val else cause }

/-- `Parser.errorExpected`. -/
def perrorExpected (p : PState) (msg : String) : PErr :=
  perrorf p ("expected " ++ msg ++ ", found " ++ tokStr p.tok)

/-- `Parser.errorUnexpected`. -/
def perrorUnexpected (p : PState) : PErr :=
  perrorf p ("unexpected " ++ tokStr p.tok)

/-- `Parser.expect`. -/
def pExpect (t : TokType) (p : PState) : Except PErr PState :=
  if p.tok.typ ≠ t then .error (perrorExpected p (tokTypeStr t))
  else .ok (pNext p)

/-- The whitespace-only test between two byte offsets. -/
def rangeAllWhitespace (input : GoStr) (a b : Nat) : Bool :=
  (List.range (b - a)).all (fun i => isWhitespaceB (byteAt input (a + i)))

/-- The space-only test between two byte offsets. -/
def rangeAllSpace (input : GoStr) (a b : Nat) : Bool :=
  (List.range (b - a)).all (fun i => isSpaceB (byteAt input (a + i)))

/-- The fold of `Parser.mergeBlockSpans`: absorb a following span when
the gap is whitespace-only. -/
def mergeLoop (input : GoStr) :
    List (Nat × Nat) → (Nat × Nat) → List (Nat × Nat) → List (Nat × Nat)
  | [], last, acc => acc ++ [last]
  | sp :: rest, last, acc =>
    if rangeAllWhitespace input last.2 sp.1 then
      mergeLoop input rest (last.1, sp.2) acc
    else mergeLoop input rest sp (acc ++ [last])

/-- `Parser.mergeBlockSpans`. -/
def mergeBlockSpans (input : GoStr) : List (Nat × Nat) → List (Nat × Nat)
  | [] => []
  | s0 :: rest => mergeLoop input rest s0 []

/-- The span-removal fold of `Parser.extractTableContent`. -/
def extractLoop (input : GoStr) (endPos : Nat) :
    List (Nat × Nat) → Nat → GoStr
  | [], start => slice input start endPos
  | (l, r) :: rest, start =>
    let leftNewline := goLastIndexByte (slice input start l) '\n'
    let rightNewLine := goIndexByte (slice input r endPos) '\n'
    let lnAbs := start + leftNewline.toNat
    let rnAbs := r + rightNewLine.toNat
    let isEmptyLine : Bool := leftNewline ≠ -1 ∧ rightNewLine ≠ -1
      ∧ rangeAllSpace input (lnAbs + 1) l ∧ rangeAllSpace input r rnAbs
    if isEmptyLine then
      -- the line holds only the removed block: delete the whole line
      slice input start lnAbs ++ ['\n'] ++ extractLoop input endPos rest (rnAbs + 1)
    else
      let l2 := if l > start ∧ isSpaceB (byteAt input (l - 1)) then l - 1 else l
      let r2 := if r < endPos ∧ isSpaceB (byteAt input r) then r + 1 else r
      slice input start l2 ++ [' '] ++ extractLoop input endPos rest r2

/-- `Parser.extractTableContent`. -/
def extractTableContent (input : GoStr) (start endPos : Nat)
    (blockSpans : List (Nat × Nat)) : GoStr :=
  extractLoop input endPos (mergeBlockSpans input blockSpans) start

end Tmpl

end Dbgen

namespace Dbgen

namespace Tmpl

open Constant

/-- The outcome of `Parser.parseOp`: the operator and how many tokens its
`next` closure consumes (2 for the IS NOT look-ahead). -/
def parseOpOf (p : PState) : Op × Nat :=
  if tokOp p.tok.typ = .is ∧ tokOp p.tok1.typ = .not then (.isNot, 2)
  else (tokOp p.tok.typ, 1)

/-- Apply `parseOp`'s next-closure. -/
def pSkip : Nat → PState → PState
  | 0, p => p
  | n + 1, p => pSkip n (pNext p)

mutual

/-- `Parser.parseTemplate`. -/
def parseTemplate : Nat → PState → Except PErr (Template × PState)
  | 0, _ => .error (.go .outOfFuel)
  | fuel + 1, p => do
    let (stmts, p) ← parseStmtBlockList fuel p
    let (table, p) ← parseSingleTable fuel p
    parseTemplateLoop fuel { globalExprs := stmts, tables := [table] } p

/-- The derived-table loop of `parseTemplate`. -/
def parseTemplateLoop : Nat → Template → PState →
    Except PErr (Template × PState)
  | 0, _, _ => .error (.go .outOfFuel)
  | fuel + 1, tmpl, p =>
    if p.tok.typ = .tokEOF then .ok (tmpl, p)
    else if p.tok.typ ≠ .tokLeftDelim then .error (perrorUnexpected p)
    else do
      let (result, p) ← parseDependencyDeriveBlock fuel p
      let (parentName, childName, count) := result
      let (table, p) ← parseSingleTable fuel p
      if ¬(QEqual table.name childName) then
        .error (perrorf p
          ("derived table name in the FOR EACH ROW and CREATE TABLE statements do not match ("
            ++ String.mk (joinSep (str ".") (childName.parts.map (fun q => q.o)))
            ++ " vs " ++ String.mk (UniqueName table.name) ++ ")"))
      else
        let index := tmpl.tables.length
        match tmpl.tables.findIdx? (fun parent => QEqual parent.name parentName) with
        | none =>
          .error (perrorf p ("cannot find parent table "
            ++ String.mk (joinSep (str ".") (parentName.parts.map (fun q => q.o)))
            ++ " to generate derived rows"))
        | some pidx =>
          let tables := tmpl.tables.modify
            (fun parent => { parent with derived := parent.derived ++ [(index, count)] })
            pidx
          parseTemplateLoop fuel { tmpl with tables := tables ++ [table] } p

/-- `Parser.parseStmtBlockList`. -/
def parseStmtBlockList : Nat → PState → Except PErr (List Expr × PState)
  | 0, _ => .error (.go .outOfFuel)
  | fuel + 1, p =>
    if p.tok.typ = .tokLeftDelim then do
      let (stmt, _, _, p) ← parseStmtBlock fuel p
      let (rest, p) ← parseStmtBlockList fuel p
      .ok (stmt :: rest, p)
    else .ok ([], p)

/-- `Parser.parseStmtBlock`: returns the statement and its byte span. -/
def parseStmtBlock : Nat → PState → Except PErr (Expr × Nat × Nat × PState)
  | 0, _ => .error (.go .outOfFuel)
  | fuel + 1, p => do
    let start := p.tok.pos
    let lDelim := p.tok.val
    let p ← pExpect .tokLeftDelim p
    let (stmt, p) ← parseStmt fuel p
    let rDelim := p.tok.val
    if lDelim = str "\x7b\x7b" ∧ rDelim ≠ str "\x7d\x7d" then
      .error (perrorExpected p "\x7d\x7d")
    else if lDelim = str "/*\x7b\x7b" ∧ rDelim ≠ str "\x7d\x7d*/" then
      .error (perrorExpected p "\x7d\x7d*/")
    else
      let endPos := p.tok.pos + p.tok.val.length
      let p ← pExpect .tokRightDelim p
      .ok (stmt, start, endPos, p)

/-- `Parser.parseSingleTable`. -/
def parseSingleTable : Nat → PState → Except PErr (Table × PState)
  | 0, _ => .error (.go .outOfFuel)
  | fuel + 1, p => do
    let tableStart := p.tok.pos
    let p ← pExpect .tokCreate p
    let p ← pExpect .tokTable p
    let (qname, p) ← parseQName fuel p
    let p ← pExpect .tokLeftParen p
    let (columns, blockSpans, p) ← parseTableElems fuel [] [] [] p
    let p ← pExpect .tokRightParen p
    let (tableEnd, p) ← parseTableOptions fuel p
    let content := extractTableContent p.input tableStart tableEnd blockSpans
    .ok ({ name := qname, content := content, columns := columns,
           derived := [] }, p)

/-- The `elemLoop` of `parseSingleTable`; `colName` is the pending
column name (empty when none). -/
def parseTableElems : Nat → GoStr → List (Name × Expr) →
    List (Nat × Nat) → PState →
    Except PErr (List (Name × Expr) × List (Nat × Nat) × PState)
  | 0, _, _, _, _ => .error (.go .outOfFuel)
  | fuel + 1, colName, columns, blockSpans, p =>
    match p.tok.typ with
    | .tokIdent =>
      let colName := if colName.isEmpty then p.tok.val else colName
      parseTableElems fuel colName columns blockSpans (pNext p)
    | .tokLeftDelim => do
      let (stmt, blockStart, blockEnd, p) ← parseStmtBlock fuel p
      parseTableElems fuel [] (columns ++ [(NewName colName, stmt)])
        (blockSpans ++ [(blockStart, blockEnd)]) p
    | .tokRightParen => .ok (columns, blockSpans, p)
    | .tokRightBrack => .error (perrorUnexpected p)
    | .tokRightBrace => .error (perrorUnexpected p)
    | .tokRightDelim => .error (perrorUnexpected p)
    | .tokLeftParen => do
      let p ← skipAnyBalancedText fuel p
      parseTableElems fuel colName columns blockSpans p
    | .tokLeftBrack => do
      let p ← skipAnyBalancedText fuel p
      parseTableElems fuel colName columns blockSpans p
    | .tokLeftBrace => do
      let p ← skipAnyBalancedText fuel p
      parseTableElems fuel colName columns blockSpans p
    | .tokError => .error (perrorUnexpected p)
    | .tokEOF => .error (perrorUnexpected p)
    | _ =>
      let colName := if isIdentTok p.tok ∧ colName.isEmpty
        then p.tok.val else colName
      parseTableElems fuel colName columns blockSpans (pNext p)

/-- The `optLoop` of `parseSingleTable`: scan the table options and
report where the table's source text ends. -/
def parseTableOptions : Nat → PState → Except PErr (Nat × PState)
  | 0, _ => .error (.go .outOfFuel)
  | fuel + 1, p =>
    match p.tok.typ with
    | .tokLeftParen => do
      let p ← skipAnyBalancedText fuel p
      parseTableOptions fuel p
    | .tokLeftBrack => do
      let p ← skipAnyBalancedText fuel p
      parseTableOptions fuel p
    | .tokLeftBrace => do
      let p ← skipAnyBalancedText fuel p
      parseTableOptions fuel p
    | .tokSemicolon => .ok (p.tok.pos + p.tok.val.length, pNext p)
    | .tokEOF => .ok (p.tok.pos, p)
    | .tokError => .error (perrorUnexpected p)
    | _ => parseTableOptions fuel (pNext p)

/-- `Parser.parseDependencyDeriveBlock`. -/
def parseDependencyDeriveBlock : Nat → PState →
    Except PErr ((QName × QName × Expr) × PState)
  | 0, _ => .error (.go .outOfFuel)
  | fuel + 1, p => do
    let lDelim := p.tok.val
    let p ← pExpect .tokLeftDelim p
    let p ← pExpect .tokFor p
    let p ← pExpect .tokEach p
    let p ← pExpect .tokRow p
    let p ← pExpect .tokOf p
    let (parent, p) ← parseQName fuel p
    let p ← pExpect .tokGenerate p
    let (expr, p) ← parseExpr fuel p
    if p.tok.typ ≠ .tokRow ∧ p.tok.typ ≠ .tokRows then
      .error (perrorExpected p "ROW or ROWS")
    else do
      let p := pNext p
      let p ← pExpect .tokOf p
      let (child, p) ← parseQName fuel p
      let rDelim := p.tok.val
      if lDelim = str "\x7b\x7b" ∧ rDelim ≠ str "\x7d\x7d" then
        .error (perrorExpected p "\x7d\x7d")
      else if lDelim = str "/*\x7b\x7b" ∧ rDelim ≠ str "\x7d\x7d*/" then
        .error (perrorExpected p "\x7d\x7d*/")
      else do
        let p ← pExpect .tokRightDelim p
        .ok ((parent, child, expr), p)

/-- `Parser.parseQName`. -/
def parseQName : Nat → PState → Except PErr (QName × PState)
  | 0, _ => .error (.go .outOfFuel)
  | fuel + 1, p =>
    let names := [p.tok.val]
    if ¬isIdentTok p.tok then .error (perrorExpected p "identifier")
    else parseQNameLoop fuel 2 names (pNext p)

/-- The bounded dotted-part loop of `parseQName` (at most two further
parts). -/
def parseQNameLoop : Nat → Nat → List GoStr → PState →
    Except PErr (QName × PState)
  | 0, _, _, _ => .error (.go .outOfFuel)
  | _ + 1, 0, names, p => .ok (NewQName names, p)
  | fuel + 1, i + 1, names, p =>
    if p.tok.typ ≠ .tokPeriod then .ok (NewQName names, p)
    else
      let p := pNext p
      if ¬isIdentTok p.tok then .error (perrorExpected p "identifier")
      else parseQNameLoop fuel i (names ++ [p.tok.val]) (pNext p)

/-- `Parser.skipAnyBalancedText`. -/
def skipAnyBalancedText : Nat → PState → Except PErr PState
  | 0, _ => .error (.go .outOfFuel)
  | fuel + 1, p =>
    match p.tok.typ with
    | .tokLeftParen => skipBalancedText fuel .tokRightParen p
    | .tokLeftBrack => skipBalancedText fuel .tokRightBrack p
    | .tokLeftBrace => skipBalancedText fuel .tokRightBrace p
    | _ => .ok p

/-- `Parser.skipBalancedText`. -/
def skipBalancedText : Nat → TokType → PState → Except PErr PState
  | 0, _, _ => .error (.go .outOfFuel)
  | fuel + 1, closeTok, p0 =>
    let p := pNext p0
    skipBalancedLoop fuel closeTok p

/-- The scan loop of `skipBalancedText`. -/
def skipBalancedLoop : Nat → TokType → PState → Except PErr PState
  | 0, _, _ => .error (.go .outOfFuel)
  | fuel + 1, closeTok, p =>
    match p.tok.typ with
    | .tokEOF => .error (perrorf p "unbalanced text")
    | .tokRightParen =>
      if p.tok.typ ≠ closeTok then .error (perrorf p "unbalanced text")
      else .ok (pNext p)
    | .tokRightBrack =>
      if p.tok.typ ≠ closeTok then .error (perrorf p "unbalanced text")
      else .ok (pNext p)
    | .tokRightBrace =>
      if p.tok.typ ≠ closeTok then .error (perrorf p "unbalanced text")
      else .ok (pNext p)
    | .tokLeftParen => do
      let p ← skipBalancedText fuel .tokRightParen p
      skipBalancedLoop fuel closeTok p
    | .tokLeftBrack => do
      let p ← skipBalancedText fuel .tokRightBrack p
      skipBalancedLoop fuel closeTok p
    | .tokLeftBrace => do
      let p ← skipBalancedText fuel .tokRightBrace p
      skipBalancedLoop fuel closeTok p
    | .tokError => .error (perrorUnexpected p)
    | _ => skipBalancedLoop fuel closeTok (pNext p)

/-- `Parser.parseStmt`. -/
def parseStmt : Nat → PState → Except PErr (Expr × PState)
  | 0, _ => .error (.go .outOfFuel)
  | fuel + 1, p => do
    let (expr, p) ← parseExpr fuel p
    parseStmtLoop fuel expr p

/-- The `;`-folding loop of `parseStmt`. -/
def parseStmtLoop : Nat → Expr → PState → Except PErr (Expr × PState)
  | 0, _, _ => .error (.go .outOfFuel)
  | fuel + 1, expr, p =>
    if p.tok.typ ≠ .tokSemicolon then .ok (expr, p)
    else do
      let p := pNext p
      let (nextExpr, p) ← parseExpr fuel p
      parseStmtLoop fuel (.binary .semicolon expr nextExpr) p

/-- `Parser.parseExpr`. -/
def parseExpr : Nat → PState → Except PErr (Expr × PState)
  | 0, _ => .error (.go .outOfFuel)
  | fuel + 1, p => parseBinaryExpr fuel Op.semicolon.prec p

/-- `Parser.parseBinaryExpr` (precedence climbing). -/
def parseBinaryExpr : Nat → Nat → PState → Except PErr (Expr × PState)
  | 0, _, _ => .error (.go .outOfFuel)
  | fuel + 1, prec, p => do
    let (left, p) ← parseUnaryExpr fuel p
    parseBinaryLoop fuel prec left p

/-- The operator loop of `parseBinaryExpr`, with the
`GetVariable := …  ⇒  SetVariable` rewrite. -/
def parseBinaryLoop : Nat → Nat → Expr → PState → Except PErr (Expr × PState)
  | 0, _, _, _ => .error (.go .outOfFuel)
  | fuel + 1, prec, left, p =>
    let (op, skip) := parseOpOf p
    if op.isBinary ∧ (op.prec > prec ∨ (op.prec = prec ∧ op.isRightAssoc)) then do
      let p := pSkip skip p
      let (right, p) ← parseBinaryExpr fuel op.prec p
      let left :=
        match left, op with
        | .getVariable name, .assign => Expr.setVariable name right
        | _, _ => .binary op left right
      parseBinaryLoop fuel prec left p
    else .ok (left, p)

/-- `Parser.parseUnaryExpr` (with the `[expr]` subscript postfix). -/
def parseUnaryExpr : Nat → PState → Except PErr (Expr × PState)
  | 0, _ => .error (.go .outOfFuel)
  | fuel + 1, p =>
    match tokOp p.tok.typ with
    | .not => do
      let p := pNext p
      let (expr, p) ← parseBinaryExpr fuel (Op.not.prec) p
      .ok (.unary .not expr, p)
    | .add => do
      let p := pNext p
      let (expr, p) ← parsePrimaryExpr fuel p
      .ok (.unary .add expr, p)
    | .sub => do
      let p := pNext p
      let (expr, p) ← parsePrimaryExpr fuel p
      .ok (.unary .sub expr, p)
    | .bitNot => do
      let p := pNext p
      let (expr, p) ← parsePrimaryExpr fuel p
      .ok (.unary .bitNot expr, p)
    | _ => do
      let (expr, p) ← parsePrimaryExpr fuel p
      if p.tok.typ ≠ .tokLeftBrack then .ok (expr, p)
      else do
        let p := pNext p
        let (index, p) ← parseExpr fuel p
        let p ← pExpect .tokRightBrack p
        .ok (.subscript expr index, p)

/-- `Parser.parsePrimaryExpr`. -/
def parsePrimaryExpr : Nat → PState → Except PErr (Expr × PState)
  | 0, _ => .error (.go .outOfFuel)
  | fuel + 1, p =>
    match p.tok.typ with
    | .tokRowNum => .ok (.rowNum, pNext p)
    | .tokSubRowNum => .ok (.subRowNum, pNext p)
    | .tokNull => .ok (.constant .null, pNext p)
    | .tokTrue => .ok (.constant (MakeBool true), pNext p)
    | .tokFalse => .ok (.constant (MakeBool false), pNext p)
    | .tokCurrentTimestamp => .ok (.currentTimestamp, pNext p)
    | .tokLeftParen => do
      let p := pNext p
      let (expr, p) ← parseExpr fuel p
      let p ← pExpect .tokRightParen p
      .ok (.paren expr, p)
    | .tokString =>
      .ok (.constant (MakeBytes (unescape p.tok.val)), pNext p)
    | .tokNumber =>
      (match MakeNumberFromLiteral p.tok.val with
       | .error e => .error (.go e)
       | .ok val => .ok (.constant val, pNext p))
    | .tokCase => parseCaseValueWhen fuel p
    | .tokTimestamp => do
      let p := pNext p
      let (withTz, p) ←
        if p.tok.typ = .tokWith then do
          let p := pNext p
          let p ← pExpect .tokTime p
          let p ← pExpect .tokZone p
          pure (true, p)
        else pure (false, p)
      let (expr, p) ← parsePrimaryExpr fuel p
      .ok (.timestampLit withTz expr, p)
    | .tokInterval => do
      let p := pNext p
      let (expr, p) ← parseExpr fuel p
      (match p.tok.typ with
       | .tokWeek => .ok (.intervalLit IntervalUnitWeek expr, p)
       | .tokDay => .ok (.intervalLit IntervalUnitDay expr, p)
       | .tokHour => .ok (.intervalLit IntervalUnitHour expr, p)
       | .tokMinute => .ok (.intervalLit IntervalUnitMinute expr, p)
       | .tokSecond => .ok (.intervalLit IntervalUnitSecond expr, p)
       | .tokMillisecond => .ok (.intervalLit IntervalUnitMillisecond expr, p)
       | .tokMicrosecond => .ok (.intervalLit IntervalUnitMicrosecond expr, p)
       | _ => .error (perrorExpected p "interval unit"))
    | .tokX => do
      let p := pNext p
      let (expr, p) ← parsePrimaryExpr fuel p
      .ok (.func (NewQName [str "hex", str "decode"]) [expr], p)
    | .tokAt => do
      let p := pNext p
      if ¬isIdentTok p.tok then .error (perrorExpected p "identifier")
      else
        let name := unescape p.tok.val
        .ok (.getVariable (unescape name), pNext p)
    | .tokArray => do
      let p := pNext p
      let p ← pExpect .tokLeftBrack p
      parseArrayElems fuel [] p
    | .tokSubstring => parseSubstring fuel p
    | .tokOverlay => parseOverlay fuel p
    | _ => do
      let (name, p) ← parseQName fuel p
      let p ← pExpect .tokLeftParen p
      parseFuncArgs fuel name [] p

/-- The element loop of the ARRAY literal. -/
def parseArrayElems : Nat → List Expr → PState → Except PErr (Expr × PState)
  | 0, _, _ => .error (.go .outOfFuel)
  | fuel + 1, elems, p =>
    if p.tok.typ = .tokRightBrack then .ok (.arrayLit elems, pNext p)
    else do
      let p ←
        if elems.length > 0 then pExpect .tokComma p
        else pure p
      let (expr, p) ← parseExpr fuel p
      parseArrayElems fuel (elems ++ [expr]) p

/-- The argument loop of a generic function call. -/
def parseFuncArgs : Nat → QName → List Expr → PState →
    Except PErr (Expr × PState)
  | 0, _, _, _ => .error (.go .outOfFuel)
  | fuel + 1, name, args, p =>
    if p.tok.typ = .tokRightParen then .ok (.func name args, pNext p)
    else do
      let p ←
        if args.length > 0 then pExpect .tokComma p
        else pure p
      let (expr, p) ← parseExpr fuel p
      parseFuncArgs fuel name (args ++ [expr]) p

/-- `Parser.parseCaseValueWhen`. -/
def parseCaseValueWhen : Nat → PState → Except PErr (Expr × PState)
  | 0, _ => .error (.go .outOfFuel)
  | fuel + 1, p => do
    let p ← pExpect .tokCase p
    parseCaseLoop fuel false none [] p

/-- The arm loop of `parseCaseValueWhen`. -/
def parseCaseLoop : Nat → Bool → Option Expr → List (Expr × Expr) →
    PState → Except PErr (Expr × PState)
  | 0, _, _, _, _ => .error (.go .outOfFuel)
  | fuel + 1, sawValueOrWhen, value, whens, p =>
    match p.tok.typ with
    | .tokWhen => do
      let p := pNext p
      let (cond, p) ← parseExpr fuel p
      let p ← pExpect .tokThen p
      let (thenE, p) ← parseStmt fuel p
      parseCaseLoop fuel true value (whens ++ [(cond, thenE)]) p
    | .tokElse => do
      let p := pNext p
      let (elseE, p) ← parseStmt fuel p
      let p ← pExpect .tokEnd p
      .ok (.caseValueWhen value whens (some elseE), p)
    | .tokEnd => .ok (.caseValueWhen value whens none, pNext p)
    | _ =>
      if sawValueOrWhen then .error (perrorExpected p "WHEN, ELSE or END")
      else do
        let (v, p) ← parseExpr fuel p
        parseCaseLoop fuel true (some v) whens p

/-- `Parser.parseSubstring`. -/
def parseSubstring : Nat → PState → Except PErr (Expr × PState)
  | 0, _ => .error (.go .outOfFuel)
  | fuel + 1, p => do
    let p ← pExpect .tokSubstring p
    let p ← pExpect .tokLeftParen p
    let (input, p) ← parseExpr fuel p
    let (from_, p) ←
      if p.tok.typ = .tokFrom then do
        let p := pNext p
        let (e, p) ← parseExpr fuel p
        pure (some e, p)
      else pure (none, p)
    let (for_, p) ←
      if p.tok.typ = .tokFor then do
        let p := pNext p
        let (e, p) ← parseExpr fuel p
        pure (some e, p)
      else pure (none, p)
    let (unit, p) ←
      if p.tok.typ = .tokUsing then
        let p := pNext p
        match p.tok.typ with
        | .tokOctets => pure (StringUnit.octets, pNext p)
        | .tokCharacters => pure (StringUnit.characters, pNext p)
        | _ => .error (perrorExpected p "OCTETS or CHARACTERS")
      else pure (StringUnit.unspecified, p)
    let p ← pExpect .tokRightParen p
    .ok (.substringE input from_ for_ unit, p)

/-- `Parser.parseOverlay`. -/
def parseOverlay : Nat → PState → Except PErr (Expr × PState)
  | 0, _ => .error (.go .outOfFuel)
  | fuel + 1, p => do
    let p ← pExpect .tokOverlay p
    let p ← pExpect .tokLeftParen p
    let (input, p) ← parseExpr fuel p
    let p ← pExpect .tokPlacing p
    let (placing, p) ← parseExpr fuel p
    let p ← pExpect .tokFrom p
    let (from_, p) ← parseExpr fuel p
    let (for_, p) ←
      if p.tok.typ = .tokFor then do
        let p := pNext p
        let (e, p) ← parseExpr fuel p
        pure (some e, p)
      else pure (none, p)
    let (unit, p) ←
      if p.tok.typ = .tokUsing then
        let p := pNext p
        match p.tok.typ with
        | .tokOctets => pure (StringUnit.octets, pNext p)
        | .tokCharacters => pure (StringUnit.characters, pNext p)
        | _ => .error (perrorExpected p "OCTETS or CHARACTERS")
      else pure (StringUnit.unspecified, p)
    let p ← pExpect .tokRightParen p
    .ok (.overlayE input placing (some from_) for_ unit, p)

end

/-- `template.Parse`. -/
def Parse (fuel : Nat) (input : GoStr) : Except PErr Template :=
  match parseTemplate fuel (pInit input) with
  | .error e => .error e
  | .ok (tmpl, _) => .ok tmpl

end Tmpl

end Dbgen

namespace Dbgen

namespace Tmpl

/-- A curly-brace character (the statement-block delimiters are built
from these). -/
def braceChar (c : Char) : Bool := c = '{' || c = '}'

/-- Whether the input byte at a position is a curly brace. -/
def braceAt (input : GoStr) (i : Nat) : Bool :=
  byteAt input i = ci '{' || byteAt input i = ci '}'

/-- The spans are in order, pairwise disjoint, and start at or after the
left barrier `lo`. -/
def spansOrdered : Nat → List (Nat × Nat) → Bool
  | _, [] => true
  | lo, sp :: rest =>
    decide (lo ≤ sp.1) && decide (sp.1 ≤ sp.2) && spansOrdered sp.2 rest

/-- Every curly brace of `input` inside `[start, endPos)` lies inside one
of the spans. -/
def spansCover (input : GoStr) (start endPos : Nat)
    (spans : List (Nat × Nat)) : Prop :=
  ∀ i, i < endPos → start ≤ i → braceAt input i = true →
    ∃ sp ∈ spans, sp.1 ≤ i ∧ i < sp.2

end Tmpl

end Dbgen

/-! ## Theorems

The claim theorems and their supporting lemmas.  Definitions of the
embedding all appear above this point. -/

namespace Dbgen

open Constant

/-- C1: the claim states that `Add`, `Sub` and `Mul` agree with exact
big-integer arithmetic on all 64-bit integers.  The code violates it:
`Sub`'s int64 fast path computes the wrapped *sum* `a + b` and applies the
subtraction sign-agreement test to it, so `Sub(MaxInt64, 1)` takes the
fast path and returns `MinInt64` instead of `MaxInt64 - 1`; and `Mul`'s
overflow test special-cases only `+1`, so `Mul(-1, MinInt64)` returns the
wrapped product `MinInt64` instead of `2^63`. -/
theorem C1_sub_mul_fast_path_bug :
    Sub (.int64 int64Max) (.int64 1) = .ok (.int64 int64Min) ∧
    int64Max - 1 ≠ int64Min ∧
    Mul (.int64 (-1)) (.int64 int64Min) = .ok (.int64 int64Min) ∧
    (-1 : Int) * int64Min ≠ int64Min :=
  ⟨rfl, by decide, rfl, by decide⟩

/-- The int64/big integer comparison of `Cmp` computes the mathematical
ordering regardless of representation. -/
theorem cmp_int_kinds (fuel : Nat) (v w : Value) (m n : Int)
    (hv : intKindVal v = some m) (hw : intKindVal w = some n) :
    Cmp (fuel + 1) v w = .ok (numberCmp m n, false) := by
  cases v with
  | int64 i =>
    cases w with
    | int64 j =>
      simp only [intKindVal, Option.some.injEq] at hv hw
      subst hv; subst hw
      simp [Cmp, cmpFuel, IsInt64, AsInt64, isNullV, wrapCmp]
    | intBig j =>
      simp only [intKindVal, Option.some.injEq] at hv hw
      subst hv; subst hw
      by_cases h : inInt64 j = true
      · simp [Cmp, cmpFuel, IsInt64, AsInt64, isNullV, wrapCmp, h]
      · simp [Cmp, cmpFuel, IsInt64, AsInt64, AsInt, isNullV, wrapCmp, kind, h]
    | null => simp [intKindVal] at hw
    | goNil => simp [intKindVal] at hw
    | bool b => simp [intKindVal] at hw
    | bytes s => simp [intKindVal] at hw
    | float f => simp [intKindVal] at hw
    | timestamp t => simp [intKindVal] at hw
    | interval d => simp [intKindVal] at hw
    | array xs => simp [intKindVal] at hw
  | intBig i =>
    cases w with
    | int64 j =>
      simp only [intKindVal, Option.some.injEq] at hv hw
      subst hv; subst hw
      simp [Cmp, cmpFuel, isNullV, wrapCmp, kind, AsInt]
    | intBig j =>
      simp only [intKindVal, Option.some.injEq] at hv hw
      subst hv; subst hw
      simp [Cmp, cmpFuel, isNullV, wrapCmp, kind, AsInt]
    | null => simp [intKindVal] at hw
    | goNil => simp [intKindVal] at hw
    | bool b => simp [intKindVal] at hw
    | bytes s => simp [intKindVal] at hw
    | float f => simp [intKindVal] at hw
    | timestamp t => simp [intKindVal] at hw
    | interval d => simp [intKindVal] at hw
    | array xs => simp [intKindVal] at hw
  | null => simp [intKindVal] at hv
  | goNil => simp [intKindVal] at hv
  | bool b => simp [intKindVal] at hv
  | bytes s => simp [intKindVal] at hv
  | float f => simp [intKindVal] at hv
  | timestamp t => simp [intKindVal] at hv
  | interval d => simp [intKindVal] at hv
  | array xs => simp [intKindVal] at hv

/-- C7 counterexample: the hex literal `0x10` fails the decimal int64
parse, succeeds on the big-integer path, and is returned as the *big*
form `intVal{16}` — not downgraded to the 64-bit fast form, contradicting
"every integer value whose magnitude is representable in 64-bit signed is
stored in the 64-bit fast form". -/
theorem C7_hex_literal_not_fast_form :
    MakeNumberFromLiteral "0x10".data = .ok (.intBig 16) ∧
    Value.intBig 16 ≠ Value.int64 16 :=
  ⟨rfl, fun h => Value.noConfusion h⟩

/-- C7 (amended): the parse order holds — a successful decimal int64
parse wins and yields the fast form; otherwise a successful base-0
big-integer parse yields the big form as-is (no `MakeInt` downgrade);
otherwise the float parser decides.  `MakeInt` itself does downgrade any
big integer fitting in 64 bits, and `Cmp` equality of integer values is
representation-independent. -/
theorem C7_literal_parse_order_and_normalization :
    (∀ s i, parseInt64Dec s = some i →
      MakeNumberFromLiteral s = .ok (.int64 i)) ∧
    (∀ s v, parseInt64Dec s = none → bigSetString0 s = some v →
      MakeNumberFromLiteral s = .ok (.intBig v)) ∧
    (∀ s, parseInt64Dec s = none → bigSetString0 s = none → goFloatSyntax s →
      MakeNumberFromLiteral s = .ok (.float (.parsed (String.mk s)))) ∧
    (∀ i, inInt64 i = true → MakeInt i = .int64 i) ∧
    (∀ fuel v w m n, intKindVal v = some m → intKindVal w = some n →
      (Cmp (fuel + 1) v w = .ok (0, false) ↔ m = n)) := by
  refine ⟨?_, ?_, ?_, ?_, ?_⟩
  · intro s i h
    simp [MakeNumberFromLiteral, h, MakeInt64]
  · intro s v h1 h2
    simp [MakeNumberFromLiteral, h1, h2]
  · intro s h1 h2 h3
    simp [MakeNumberFromLiteral, h1, h2, h3, MakeFloat]
  · intro i h
    simp [MakeInt, h]
  · intro fuel v w m n hv hw
    rw [cmp_int_kinds fuel v w m n hv hw]
    constructor
    · intro h
      have h2 : numberCmp m n = 0 := by
        have := congrArg (fun x => match x with
          | Except.ok (r, _) => r
          | Except.error _ => (2 : Int)) h
        simpa using this
      by_contra hne
      rcases lt_or_gt_of_ne hne with hlt | hgt
      · simp [numberCmp, hlt] at h2
      · simp [numberCmp, not_lt_of_gt hgt, hgt] at h2
    · intro h
      subst h
      simp [numberCmp]

/-- Witness for C7: `"123"` parses decimally to the fast form, `"0x10"`
takes the big path, `MakeInt` downgrades 16, and big/fast 16 compare
equal. -/
theorem C7_literal_parse_order_and_normalization_witness :
    MakeNumberFromLiteral "123".data = .ok (.int64 123) ∧
    MakeNumberFromLiteral "0x10".data = .ok (.intBig 16) ∧
    MakeInt 16 = .int64 16 ∧
    Cmp 1 (.intBig 16) (.int64 16) = .ok (0, false) :=
  ⟨C7_literal_parse_order_and_normalization.1 _ 123 (by decide),
   C7_literal_parse_order_and_normalization.2.1 _ 16 (by decide) (by decide),
   C7_literal_parse_order_and_normalization.2.2.2.1 16 (by decide),
   ((C7_literal_parse_order_and_normalization.2.2.2.2 0
      (.intBig 16) (.int64 16) 16 16 rfl rfl).2 rfl)⟩

end Dbgen

namespace Dbgen

open Constant Tmpl Core

/-- C2: the claim states the compiled SetVariable node carries both the
variable index and the compiled child, and that evaluating it writes and
returns the child's value.  The code resolves the index but never
compiles `expr.Value`: the compiled node's value field is always nil, and
evaluating it dereferences that nil interface. -/
theorem C2_setvariable_never_carries_child :
    (∀ fuel ctx name value c ctx2,
      compileExpr (fuel + 1) ctx (Tmpl.Expr.setVariable name value) = .ok (c, ctx2) →
      ∃ idx, c = .setVariable idx none) ∧
    compileExpr 9 { currentTimestamp := 0, vars := [] }
        (Tmpl.Expr.setVariable (str "x") (.constant (.int64 1)))
      = .ok (.setVariable 0 none,
             { currentTimestamp := 0, vars := [(str "x", .null)] }) ∧
    evalC 9 (.setVariable 0 none)
        (some { rowNum := 1, subRowNum := 1,
                ctx := { currentTimestamp := 0, vars := [(str "x", .null)] } })
      = .error (.goPanic "nil pointer dereference") := by
  refine ⟨?_, rfl, rfl⟩
  intro fuel ctx name value c ctx2 h
  simp only [compileExpr] at h
  rcases hfind : ctx.vars.findIdx? (fun v => v.1 = name) with _ | idx
  · rw [hfind] at h
    simp only [Except.ok.injEq, Prod.mk.injEq] at h
    exact ⟨ctx.vars.length, h.1.symm⟩
  · rw [hfind] at h
    simp only [Except.ok.injEq, Prod.mk.injEq] at h
    exact ⟨idx, h.1.symm⟩

/-- Witness for C2's universal part at the concrete assignment. -/
theorem C2_setvariable_never_carries_child_witness :
    ∃ idx, (Compiled.setVariable 0 none) = .setVariable idx none :=
  C2_setvariable_never_carries_child.1 8 { currentTimestamp := 0, vars := [] }
    (str "x") (.constant (.int64 1)) (.setVariable 0 none)
    { currentTimestamp := 0, vars := [(str "x", .null)] } rfl

/-- C9 counterexample: the single element of the array materialized from
an empty list is the Go nil interface value, not the `Null` value — the
two are observably different: comparing the nil element fails with a
`CompareError` where the Null element propagates NULL. -/
theorem C9_empty_array_element_is_nil_not_null :
    MakeArray [] = .array [.goNil] ∧
    Value.array [.goNil] ≠ Value.array [.null] ∧
    Cmp 3 (.array [.goNil]) (.array [.int64 1])
      = .error (.compare .goNil (.int64 1)) ∧
    Cmp 3 (.array [.null]) (.array [.int64 1]) = .ok (0, true) := by
  refine ⟨rfl, ?_, rfl, rfl⟩
  intro h
  simp at h

/-- C9 (amended): `MakeArray` of an empty list is the one-element array
holding the nil interface value; a non-empty list is kept as-is; the
ARRAY construction function materializes exactly `MakeArray` of its
arguments. -/
theorem C9_makearray_empty_singleton_nil :
    MakeArray [] = .array [.goNil] ∧
    (∀ xs : List Value, xs ≠ [] → MakeArray xs = .array xs) ∧
    (∀ fuel ctx args, fnCompile fuel ctx .arrayF args
      = .ok (.constant (MakeArray args))) := by
  refine ⟨rfl, ?_, ?_⟩
  · intro xs h
    simp [MakeArray, h]
  · intro fuel ctx args
    rfl

/-- Witness for C9 at a nonempty list and the zero-argument function. -/
theorem C9_makearray_empty_singleton_nil_witness :
    MakeArray [Value.int64 1] = .array [.int64 1] ∧
    fnCompile 0 { currentTimestamp := 0, vars := [] } .arrayF []
      = .ok (.constant (MakeArray [])) :=
  ⟨C9_makearray_empty_singleton_nil.2.1 [Value.int64 1] (by simp),
   C9_makearray_empty_singleton_nil.2.2 0 { currentTimestamp := 0, vars := [] } []⟩

/-- C10: subscripting is 1-based and total over integer indices: an
in-range index yields the element, an out-of-range or non-int64-sized
integer yields NULL, a non-integer index kind is the "subscript must be
an integer" error, and a non-array base is a conversion error. -/
theorem C10_subscript_one_based_total :
    (∀ fuel ctx (xs : List Value) (i : Int) v, inInt64 i = true →
      1 ≤ i → i ≤ xs.length → xs[(i - 1).toNat]? = some v →
      fnCompile fuel ctx .subscriptF [.array xs, .int64 i]
        = .ok (.constant v)) ∧
    (∀ fuel ctx (xs : List Value) (i : Int), inInt64 i = true →
      (i ≤ 0 ∨ i > xs.length) →
      fnCompile fuel ctx .subscriptF [.array xs, .int64 i]
        = .ok (.constant .null)) ∧
    (∀ fuel ctx (xs : List Value) (i : Int), inInt64 i = false →
      fnCompile fuel ctx .subscriptF [.array xs, .intBig i]
        = .ok (.constant .null)) ∧
    (∀ fuel ctx (xs : List Value) (idx : Value) k, kind idx = some k → k ≠ .int →
      fnCompile fuel ctx .subscriptF [.array xs, idx]
        = .error (.errorf ("subscript must be an integer, got " ++ k.str))) ∧
    (∀ fuel ctx (base idx : Value), kind base ≠ some .array →
      fnCompile fuel ctx .subscriptF [base, idx]
        = .error (.convert base "[]Value")) := by
  refine ⟨?_, ?_, ?_, ?_, ?_⟩
  · intro fuel ctx xs i v h64 h1 h2 hget
    have hle : ¬(i ≤ 0 ∨ i > (xs.length : Int)) := by omega
    simp only [fnCompile, AsArray, kind, IsInt64, h64, AsInt64]
    simp only [hle, if_false, if_neg (by simp [Kind.str] : ¬(Kind.int ≠ Kind.int)),
      Bool.not_true, reduceIte]
    rw [List.getD_eq_getElem?_getD, hget]
    simp
  · intro fuel ctx xs i h64 hrange
    simp only [fnCompile, AsArray, kind, IsInt64, h64, AsInt64]
    simp [hrange]
  · intro fuel ctx xs i h64
    simp [fnCompile, AsArray, kind, IsInt64, h64]
  · intro fuel ctx xs idx k hk hne
    simp [fnCompile, AsArray, hk, hne]
  · intro fuel ctx base idx hbase
    have : AsArray base = .error (.convert base "[]Value") := by
      cases base <;> simp_all [AsArray, kind]
    simp [fnCompile, this]

/-- Witness for C10 at concrete inputs: `[10,20][2] = 20`,
`[10][0] = NULL`, a big index gives NULL, a bytes index errors, and a
non-array base errors. -/
theorem C10_subscript_one_based_total_witness :
    fnCompile 0 { currentTimestamp := 0, vars := [] } .subscriptF
      [.array [.int64 10, .int64 20], .int64 2] = .ok (.constant (.int64 20)) ∧
    fnCompile 0 { currentTimestamp := 0, vars := [] } .subscriptF
      [.array [.int64 10], .int64 0] = .ok (.constant .null) ∧
    fnCompile 0 { currentTimestamp := 0, vars := [] } .subscriptF
      [.array [.int64 10], .intBig 9223372036854775808] = .ok (.constant .null) ∧
    fnCompile 0 { currentTimestamp := 0, vars := [] } .subscriptF
      [.array [.int64 10], .bytes (str "a")]
      = .error (.errorf ("subscript must be an integer, got " ++ Kind.str .bytes)) ∧
    fnCompile 0 { currentTimestamp := 0, vars := [] } .subscriptF
      [.int64 3, .int64 1] = .error (.convert (.int64 3) "[]Value") :=
  ⟨C10_subscript_one_based_total.1 0 _ _ 2 (.int64 20) (by decide) (by decide)
      (by simp) (by rfl),
   C10_subscript_one_based_total.2.1 0 _ _ 0 (by decide) (by simp),
   C10_subscript_one_based_total.2.2.1 0 _ _ 9223372036854775808 (by decide),
   C10_subscript_one_based_total.2.2.2.1 0 _ _ (.bytes (str "a")) .bytes rfl
      (by decide),
   C10_subscript_one_based_total.2.2.2.2 0 _ (.int64 3) (.int64 1) (by decide)⟩

/-- C8: qualified-name equality is definitionally unique-name equality;
it is an equivalence relation, and it is insensitive to quoting style and
letter case because the unique name depends only on the normalized
parts. -/
theorem C8_qname_equality_via_unique_name :
    (∀ q p : QName, QEqual q p = true ↔ UniqueName q = UniqueName p) ∧
    (∀ q : QName, QEqual q q = true) ∧
    (∀ q p : QName, QEqual q p = true → QEqual p q = true) ∧
    (∀ q p r : QName, QEqual q p = true → QEqual p r = true →
      QEqual q r = true) ∧
    (∀ ns ns' : List GoStr,
      ns.map (fun s => (NewName s).n) = ns'.map (fun s => (NewName s).n) →
      QEqual (NewQName ns) (NewQName ns') = true) := by
  have hiff : ∀ q p : QName, QEqual q p = true ↔ UniqueName q = UniqueName p := by
    intro q p
    simp [QEqual]
  refine ⟨hiff, ?_, ?_, ?_, ?_⟩
  · intro q
    exact (hiff q q).mpr rfl
  · intro q p h
    exact (hiff p q).mpr ((hiff q p).mp h).symm
  · intro q p r h1 h2
    exact (hiff q r).mpr (((hiff q p).mp h1).trans ((hiff p r).mp h2))
  · intro ns ns' h
    refine (hiff _ _).mpr ?_
    have key : ∀ ms : List GoStr,
        UniqueName (NewQName ms)
          = joinSep (str ".") ((ms.map (fun s => (NewName s).n)).map
              (fun nn => replaceAll nn (str ".") (str "%2E"))) := by
      intro ms
      simp [UniqueName, NewQName, List.map_map]
      rfl
    rw [key, key, h]

/-- Witness for C8: `Foo` and `"fOo"` are distinct lexemes whose
normalized parts agree, so the qualified names are equal. -/
theorem C8_qname_equality_via_unique_name_witness :
    QEqual (NewQName [str "Foo"]) (NewQName [str "\"fOo\""]) = true ∧
    QEqual (NewQName [str "Foo"]) (NewQName [str "Foo"]) = true :=
  ⟨C8_qname_equality_via_unique_name.2.2.2.2 [str "Foo"] [str "\"fOo\""]
    (by decide),
   C8_qname_equality_via_unique_name.2.1 (NewQName [str "Foo"])⟩

/-- Scenario check from the spec: the quoted parts
`"d""b"`, `[schema]`, and back-quoted `ta``ble` produce the unique name
`d"b.schema.ta` followed by a back quote and `ble`. -/
theorem qname_unique_name_spec_example :
    UniqueName (NewQName [str "\"d\"\"b\"", str "[schema]", str "`ta``ble`"])
      = str "d\"b.schema.ta`ble" := by decide

end Dbgen

namespace Dbgen

open Constant Tmpl Core

/-- A left fold over a fixed point of the step function stays there. -/
theorem foldl_fixed {α β : Type} (f : α → β → α) (a : α)
    (h : ∀ b, f a b = a) (l : List β) : l.foldl f a = a := by
  induction l with
  | nil => rfl
  | cons x xs ih => rw [List.foldl_cons, h x, ih]

/-- Evaluating a constant expression consumes one unit of fuel and
returns the value unchanged. -/
theorem evalC_succ_const (n : Nat) (x : Value) (st : Option State) :
    evalC (n + 1) (.constant x) st = .ok (x, st) := rfl

/-- Evaluating an all-constant CASE node with any state follows the
reference selection `caseSelect` and leaves the state unchanged. -/
theorem evalC_const_case (f : Nat) (v : Value) (ws : List (Value × Value))
    (e : Value) (st : Option State) :
    evalC (f + 2)
        (.caseValueWhen (.constant v)
          (ws.map (fun p => (Compiled.constant p.1, Compiled.constant p.2)))
          (.constant e)) st
      = match caseSelect (f + 1) v ws e with
        | .error err => .error err
        | .ok r => .ok (r, st) := by
  conv_lhs => rw [show f + 2 = (f + 1) + 1 from rfl, evalC]
  simp only [evalC_succ_const]
  induction ws with
  | nil => simp [caseSelect, evalC_succ_const]
  | cons w rest ih =>
    rw [List.map_cons, List.foldl_cons]
    simp only [evalC_succ_const, caseSelect]
    by_cases hnull : isNullV v
    · simp only [hnull, if_true, reduceIte]
      rcases hb : AsBool w.1 with err | b
      · simp only [hb]
        rw [foldl_fixed _ _ (fun b => rfl)]
      · cases b with
        | true =>
          simp only [hb, if_true, reduceIte]
          rw [foldl_fixed _ _ (fun b => rfl)]
        | false =>
          simp only [hb, if_false, reduceIte]
          simpa only [hnull, if_true, reduceIte] using ih
    · simp only [hnull, if_false, Bool.false_eq_true, reduceIte]
      rcases hc : Cmp (f + 1) v w.1 with err | pr
      · simp only [hc]
        rw [foldl_fixed _ _ (fun b => rfl)]
      · rcases pr with ⟨r, isNull⟩
        simp only [hc]
        by_cases hcond : r = 0 ∧ ¬isNull = true
        · simp only [if_pos hcond, evalC_succ_const]
          rw [foldl_fixed _ _ (fun b => rfl)]
        · simp only [if_neg hcond]
          simpa only [hnull, Bool.false_eq_true, if_false, reduceIte] using ih

/-- The child-compilation fold of a CASE's WHEN list, when every piece
compiles to a constant without touching the context. -/
theorem compile_when_fold (fuel : Nat) (ctx : Ctx)
    (ws : List (Tmpl.Expr × Tmpl.Expr)) (cws : List (Value × Value))
    (hws : List.Forall₂ (fun (w : Tmpl.Expr × Tmpl.Expr) (p : Value × Value) =>
      compileExpr fuel ctx w.1 = .ok (.constant p.1, ctx) ∧
      compileExpr fuel ctx w.2 = .ok (.constant p.2, ctx)) ws cws)
    (acc : List (Compiled × Compiled)) :
    ws.foldl
      (fun (acc : Except GoErr (List (Compiled × Compiled) × Ctx)) w =>
        match acc with
        | .error err => .error err
        | .ok (l, ctxA) =>
          match compileExpr fuel ctxA w.1 with
          | .error err => .error err
          | .ok (cCond, ctxB) =>
            match compileExpr fuel ctxB w.2 with
            | .error err => .error err
            | .ok (cThen, ctxC) => .ok (l ++ [(cCond, cThen)], ctxC))
      (.ok (acc, ctx))
      = .ok (acc ++ cws.map (fun p => (Compiled.constant p.1, Compiled.constant p.2)),
             ctx) := by
  induction hws generalizing acc with
  | nil => simp
  | @cons w p ws2 cws2 hpair _ ih =>
    simp only [List.foldl_cons, hpair.1, hpair.2, List.map_cons]
    rw [ih]
    simp

/-- `compileCaseStep` on an all-constant node evaluates once and
collapses to a constant (or surfaces the evaluation error). -/
theorem compileCaseStep_const (f : Nat) (v e : Value)
    (ws : List (Value × Value)) :
    compileCaseStep (f + 2) (.constant v)
        (ws.map (fun p => (Compiled.constant p.1, Compiled.constant p.2)))
        (.constant e)
      = match caseSelect (f + 1) v ws e with
        | .error err => .error err
        | .ok r => .ok (.constant r) := by
  have hall : ∀ w ∈ ws.map (fun p => (Compiled.constant p.1, Compiled.constant p.2)),
      (IsConstant w.1 && IsConstant w.2) = true := by
    intro w hw
    rcases List.mem_map.mp hw with ⟨p, _, hgp⟩
    subst hgp
    rfl
  simp only [compileCaseStep]
  rw [if_pos ⟨rfl, List.all_eq_true.mpr hall, rfl⟩]
  rw [evalC_const_case f v ws e none]
  cases caseSelect (f + 1) v ws e <;> rfl

/-- C3 counterexample: an all-constant CASE whose value and condition
have incomparable kinds makes the one-time compile-time evaluation fail,
so compilation returns an error instead of collapsing to a constant —
refuting "without error or panic" as stated. -/
theorem C3_constant_case_can_fail :
    compileExpr 9 { currentTimestamp := 0, vars := [] }
        (Tmpl.Expr.caseValueWhen (some (.constant (.int64 2)))
          [(.constant (.bytes (str "a")), .constant (.bytes (str "x")))] none)
      = .error (.compare (.int64 2) (.bytes (str "a"))) := rfl

/-- C3 (amended): when the CASE value, every WHEN condition and branch,
and the ELSE all compile to constants (without changing the context), the
compiler evaluates the CASE once at compile time: if that evaluation
succeeds the whole expression collapses to its constant result (in
particular `case 2 when 1 then 'a' when 2 then 'b' else 'c' end` collapses
to the bytes value "b"); if it fails, its error becomes the compile
error.  The CASE evaluation itself is modelled from the spec, the source
leaving `CaseValueWhen.Eval` unimplemented. -/
theorem C3_constant_case_folds (fuel : Nat) (ctx : Ctx)
    (vE eE : Tmpl.Expr) (ws : List (Tmpl.Expr × Tmpl.Expr))
    (cv ce r : Value) (cws : List (Value × Value))
    (hv : compileExpr (fuel + 2) ctx vE = .ok (.constant cv, ctx))
    (hws : List.Forall₂ (fun (w : Tmpl.Expr × Tmpl.Expr) (p : Value × Value) =>
      compileExpr (fuel + 2) ctx w.1 = .ok (.constant p.1, ctx) ∧
      compileExpr (fuel + 2) ctx w.2 = .ok (.constant p.2, ctx)) ws cws)
    (he : compileExpr (fuel + 2) ctx eE = .ok (.constant ce, ctx))
    (hsel : caseSelect (fuel + 1) cv cws ce = .ok r) :
    compileExpr (fuel + 3) ctx (.caseValueWhen (some vE) ws (some eE))
      = .ok (.constant r, ctx) := by
  have h3 : fuel + 3 = (fuel + 2) + 1 := rfl
  rw [h3]
  conv_lhs => rw [compileExpr]
  simp only [hv]
  rw [compile_when_fold (fuel + 2) ctx ws cws hws []]
  simp only [List.nil_append, he]
  rw [compileCaseStep_const fuel cv ce cws, hsel]

/-- Witness for C3 at the spec's scenario:
`case 2 when 1 then 'a' when 2 then 'b' else 'c' end` compiles (all parts
constant) to the constant bytes value "b". -/
theorem C3_constant_case_folds_witness :
    compileExpr 3 { currentTimestamp := 0, vars := [] }
        (Tmpl.Expr.caseValueWhen (some (.constant (.int64 2)))
          [(.constant (.int64 1), .constant (.bytes (str "a"))),
           (.constant (.int64 2), .constant (.bytes (str "b")))]
          (some (.constant (.bytes (str "c")))))
      = .ok (.constant (.bytes (str "b")), { currentTimestamp := 0, vars := [] }) :=
  C3_constant_case_folds 0 { currentTimestamp := 0, vars := [] }
    (.constant (.int64 2)) (.constant (.bytes (str "c")))
    [(.constant (.int64 1), .constant (.bytes (str "a"))),
     (.constant (.int64 2), .constant (.bytes (str "b")))]
    (.int64 2) (.bytes (str "c")) (.bytes (str "b"))
    [(.int64 1, .bytes (str "a")), (.int64 2, .bytes (str "b"))]
    rfl
    (List.Forall₂.cons ⟨rfl, rfl⟩ (List.Forall₂.cons ⟨rfl, rfl⟩ List.Forall₂.nil))
    rfl rfl

end Dbgen

namespace Dbgen

open Constant Tmpl Core

/-- Wraparound is the identity on in-range integers. -/
theorem wrap64_of_inInt64 (n : Int) (hn : inInt64 n = true) : wrap64 n = n := by
  simp only [inInt64, int64Min, int64Max, decide_eq_true_eq] at hn
  unfold wrap64
  omega

/-- `Add` on two in-range int64 values is exact: the fast path fires
exactly when the sum stays in range, and the big-integer fall-through
yields the exact sum as a (non-normalized) big value. -/
theorem add_int64_exact (cur s : Int) (hc : inInt64 cur = true)
    (hs : inInt64 s = true) :
    Constant.Add (.int64 cur) (.int64 s)
      = .ok (if inInt64 (cur + s) then Value.int64 (cur + s)
             else .intBig (cur + s)) := by
  by_cases h : inInt64 (cur + s) = true
  · have hsum : wrap64 (cur + s) = cur + s := wrap64_of_inInt64 _ h
    have hcond : ((decide (cur + s > cur)) == (decide (s > 0))) = true := by
      rw [beq_iff_eq, decide_eq_decide]
      omega
    simp only [Constant.Add, isNullV, Bool.false_eq_true, if_false, wrapBinOp,
      addBody, IsInt64, AsInt64, hsum, hcond, if_true, reduceIte, h]
  · have hcond : ((decide (wrap64 (cur + s) > cur)) == (decide (s > 0))) = false := by
      simp only [inInt64, int64Min, int64Max, decide_eq_true_eq] at hc hs h
      rw [Bool.eq_false_iff, Ne, beq_iff_eq, decide_eq_decide]
      unfold wrap64
      omega
    simp only [Constant.Add, isNullV, Bool.false_eq_true, if_false, wrapBinOp,
      addBody, IsInt64, AsInt64, hcond, reduceIte, addBody.addInt64Slow, kind,
      AsInt, h]

theorem numberCmp_eq_one_iff (a b : Int) : numberCmp a b = 1 ↔ b < a := by
  unfold numberCmp
  split_ifs with h1 h2
  · constructor
    · intro h
      exact absurd h (by decide)
    · intro h
      omega
  · simp [h2]
  · constructor
    · intro h
      exact absurd h (by decide)
    · intro h
      omega

theorem numberCmp_eq_negone_iff (a b : Int) : numberCmp a b = -1 ↔ a < b := by
  unfold numberCmp
  split_ifs with h1 h2
  · simp [h1]
  · constructor
    · intro h
      exact absurd h (by decide)
    · intro h
      omega
  · constructor
    · intro h
      exact absurd h (by decide)
    · intro h
      omega

/-- The nonzero sign of the step is ±1. -/
theorem numberCmp_sign (s : Int) (hs : s ≠ 0) :
    numberCmp s 0 = 1 ∨ numberCmp s 0 = -1 := by
  unfold numberCmp
  split_ifs with h1 h2
  · right
    rfl
  · left
    rfl
  · exact absurd (by omega) hs

/-- The loop of `generate_series` on in-range int64 endpoints and step
produces exactly the mathematical series, appended to the accumulator. -/
theorem genSeriesLoop_char (b s : Int) (hb : inInt64 b = true)
    (hs64 : inInt64 s = true) (hs : s ≠ 0) :
    ∀ (n : Nat) (cur : Int), inInt64 cur = true → seriesCount cur b s = n →
    ∀ (acc : List Value) (fuel : Nat), n + 1 ≤ fuel →
    genSeriesLoop (.int64 b) (.int64 s) (numberCmp s 0) fuel (.int64 cur) acc
      = .ok (acc ++ (List.range n).map
          (fun (k : Nat) => Value.int64 (cur + (k : Int) * s))) := by
  have hsg : numberCmp s 0 = 1 ∨ numberCmp s 0 = -1 := numberCmp_sign s hs
  have hs' : (numberCmp s 0) * s > 0 := by
    rcases hsg with h | h
    · have := (numberCmp_eq_one_iff s 0).mp h
      rw [h]; omega
    · have := (numberCmp_eq_negone_iff s 0).mp h
      rw [h]; omega
  intro n
  induction n with
  | zero =>
    intro cur hcur hcount acc fuel hfuel
    obtain ⟨f, rfl⟩ : ∃ f, fuel = f + 1 := ⟨fuel - 1, by omega⟩
    have hpast : (numberCmp s 0) * (b - cur) < 0 := by
      by_contra hge
      simp only [seriesCount, if_neg hge] at hcount
      omega
    have hcmp : numberCmp cur b = numberCmp s 0 := by
      rcases hsg with h | h <;> rw [h] <;> rw [h] at hpast
      · rw [numberCmp_eq_one_iff]; omega
      · rw [numberCmp_eq_negone_iff]; omega
    simp only [genSeriesLoop,
      cmp_int_kinds f (.int64 cur) (.int64 b) cur b rfl rfl, hcmp,
      Bool.false_eq_true, false_or, if_pos rfl, List.range_zero, List.map_nil,
      List.append_nil, reduceIte]
  | succ m ih =>
    intro cur hcur hcount acc fuel hfuel
    obtain ⟨f, rfl⟩ : ∃ f, fuel = f + 1 := ⟨fuel - 1, by omega⟩
    have hD : (numberCmp s 0) * (b - cur) ≥ 0 := by
      by_contra hlt
      simp only [seriesCount, if_pos (by omega : (numberCmp s 0) * (b - cur) < 0)]
        at hcount
      omega
    have hcmp : numberCmp cur b ≠ numberCmp s 0 := by
      rcases hsg with h | h <;> rw [h] <;> rw [h] at hD <;> intro heq
      · rw [numberCmp_eq_one_iff] at heq; omega
      · rw [numberCmp_eq_negone_iff] at heq; omega
    have hcount' : ((numberCmp s 0) * (b - cur)) / ((numberCmp s 0) * s)
        = (m : Int) := by
      simp only [seriesCount, if_neg (by omega : ¬(numberCmp s 0) * (b - cur) < 0)]
        at hcount
      have h0 : 0 ≤ ((numberCmp s 0) * (b - cur)) / ((numberCmp s 0) * s) :=
        Int.ediv_nonneg (by omega) (by omega)
      omega
    have hstep : Constant.Add (.int64 cur) (.int64 s)
        = .ok (if inInt64 (cur + s) then Value.int64 (cur + s)
               else .intBig (cur + s)) := add_int64_exact cur s hcur hs64
    have hmap : (List.range (m + 1)).map
          (fun (k : Nat) => Value.int64 (cur + (k : Int) * s))
        = Value.int64 cur
          :: (List.range m).map
              (fun (k : Nat) => Value.int64 ((cur + s) + (k : Int) * s)) := by
    -- peel the first element of the range and re-index the remainder
      simp only [List.range_succ_eq_map, List.map_cons, List.map_map,
        Nat.cast_zero, zero_mul, add_zero]
      congr 1
      apply List.map_congr_left
      intro k _
      simp only [Function.comp_apply]
      congr 1
      push_cast
      ring
    by_cases hin : inInt64 (cur + s) = true
    · have hnext : seriesCount (cur + s) b s = m := by
        simp only [seriesCount]
        have hsub : (numberCmp s 0) * (b - (cur + s))
            = (numberCmp s 0) * (b - cur) + (-1) * ((numberCmp s 0) * s) := by
          ring
        by_cases hge : (numberCmp s 0) * s ≤ (numberCmp s 0) * (b - cur)
        · rw [if_neg (by omega)]
          rw [hsub, Int.add_mul_ediv_right _ _ (by omega : (numberCmp s 0) * s ≠ 0)]
          have h1 : 1 ≤ ((numberCmp s 0) * (b - cur)) / ((numberCmp s 0) * s) := by
            rw [Int.le_ediv_iff_mul_le (by omega)]
            omega
          omega
        · have hd0 : ((numberCmp s 0) * (b - cur)) / ((numberCmp s 0) * s) = 0 :=
            Int.ediv_eq_zero_of_lt (by omega) (by omega)
          have hm0 : m = 0 := by omega
          rw [if_pos (by omega), hm0]
      simp only [genSeriesLoop,
        cmp_int_kinds f (.int64 cur) (.int64 b) cur b rfl rfl,
        Bool.false_eq_true, false_or, if_neg hcmp, hstep, if_pos hin, reduceIte]
      have hrec := ih (cur + s) hin hnext (acc ++ [Value.int64 cur]) f (by omega)
      rw [hrec, hmap]
      simp
    · have hm0 : m = 0 := by
        by_contra hm
        have h1 : 1 ≤ ((numberCmp s 0) * (b - cur)) / ((numberCmp s 0) * s) := by
          omega
        have hge : (numberCmp s 0) * s ≤ (numberCmp s 0) * (b - cur) := by
          have h2 := (Int.le_ediv_iff_mul_le
            (by omega : (0:Int) < (numberCmp s 0) * s)).mp h1
          omega
        -- then cur + s lies between cur and b, hence in range: contradiction
        apply hin
        simp only [inInt64, int64Min, int64Max, decide_eq_true_eq] at hb hs64 hcur ⊢
        rcases hsg with h | h
        · have hpos := (numberCmp_eq_one_iff s 0).mp h
          rw [h] at hge
          omega
        · have hneg := (numberCmp_eq_negone_iff s 0).mp h
          rw [h] at hge
          omega
      have hpastnext : numberCmp (cur + s) b = numberCmp s 0 := by
        simp only [inInt64, int64Min, int64Max, decide_eq_true_eq] at hb hs64 hcur
        have hnin : ¬(int64Min ≤ cur + s ∧ cur + s ≤ int64Max) := by
          intro hcontra
          apply hin
          simp only [inInt64, decide_eq_true_eq]
          exact hcontra
        simp only [int64Min, int64Max] at hnin
        rcases hsg with h | h <;> rw [h]
        · have hpos := (numberCmp_eq_one_iff s 0).mp h
          rw [numberCmp_eq_one_iff]
          omega
        · have hneg := (numberCmp_eq_negone_iff s 0).mp h
          rw [numberCmp_eq_negone_iff]
          omega
      obtain ⟨f2, rfl⟩ : ∃ f2, f = f2 + 1 := ⟨f - 1, by omega⟩
      simp only [genSeriesLoop,
        cmp_int_kinds (f2 + 1) (.int64 cur) (.int64 b) cur b rfl rfl,
        cmp_int_kinds f2 (.intBig (cur + s)) (.int64 b) (cur + s) b rfl rfl,
        Bool.false_eq_true, false_or, if_neg hcmp, hstep, if_neg hin, reduceIte,
        hpastnext, if_pos rfl]
      subst hm0
      rw [show List.range 1 = [0] from rfl]
      simp

end Dbgen

namespace Dbgen

open Constant Tmpl Core

/-- C6 counterexample: when the start is already past the stop the loop
produces no values, and `MakeArray` materializes the empty result as a
one-element array holding the nil interface value — not the empty array
of values the claim describes. -/
theorem C6_empty_series_is_singleton_nil :
    fnCompile 99 { currentTimestamp := 0, vars := [] } .generateSeriesF
        [.int64 5, .int64 1, .int64 2]
      = .ok (.constant (.array [.goNil])) ∧
    Value.array [.goNil] ≠ .array [] := by
  refine ⟨rfl, ?_⟩
  intro h
  simp at h

/-- C6 (amended): for in-range int64 arguments with a nonzero step,
`generate_series(a, b, s)` materializes `MakeArray` of exactly the values
`a, a+s, a+2s, …` that are not strictly past `b` in the direction of the
step's sign (the stop itself included when reached); when that value list
is empty the result is the single-nil array `MakeArray` produces.  A step
of zero sign fails with "generate_series step cannot be zero". -/
theorem C6_generate_series_characterized :
    (∀ (fuel : Nat) (ctx : Ctx) (a b s : Int), inInt64 a = true →
      inInt64 b = true → inInt64 s = true → s ≠ 0 →
      seriesCount a b s ≤ fuel →
      fnCompile fuel ctx .generateSeriesF [.int64 a, .int64 b, .int64 s]
        = .ok (.constant (MakeArray ((List.range (seriesCount a b s)).map
            (fun (k : Nat) => Value.int64 (a + (k : Int) * s)))))) ∧
    (∀ (fuel : Nat) (ctx : Ctx) (x y v : Value), Sign v = some 0 →
      fnCompile fuel ctx .generateSeriesF [x, y, v]
        = .error (.errorf "generate_series step cannot be zero")) := by
  constructor
  · intro fuel ctx a b s ha hb hs64 hs hfuel
    have hchar := genSeriesLoop_char b s hb hs64 hs (seriesCount a b s) a ha rfl
      [] (fuel + 1) (by omega)
    simp only [fnCompile, List.length_cons, List.length_nil, Constant.Sign]
    norm_num
    rcases numberCmp_sign s hs with h | h <;> rw [h] <;> rw [h] at hchar <;>
      simp only [hchar] <;> rfl
  · intro fuel ctx x y v hv
    simp only [fnCompile, List.length_cons, List.length_nil, hv]
    norm_num

/-- Witness for C6: `generate_series(1, 5, 2)` yields `[1, 3, 5]`, and a
zero step is rejected. -/
theorem C6_generate_series_characterized_witness :
    fnCompile 3 { currentTimestamp := 0, vars := [] } .generateSeriesF
        [.int64 1, .int64 5, .int64 2]
      = .ok (.constant (.array [.int64 1, .int64 3, .int64 5])) ∧
    fnCompile 0 { currentTimestamp := 0, vars := [] } .generateSeriesF
        [.int64 1, .int64 5, .int64 0]
      = .error (.errorf "generate_series step cannot be zero") := by
  constructor
  · have h := C6_generate_series_characterized.1 3
      { currentTimestamp := 0, vars := [] } 1 5 2 (by decide) (by decide)
      (by decide) (by decide) (by decide)
    rw [h]
    rfl
  · exact C6_generate_series_characterized.2 0 _ (.int64 1) (.int64 5)
      (.int64 0) rfl

end Dbgen

namespace Dbgen
open Constant Tmpl Core

theorem goLastIndexByte_bound {s : GoStr} {c : Char}
    (h : goLastIndexByte s c ≠ -1) :
    0 ≤ goLastIndexByte s c ∧ (goLastIndexByte s c).toNat < s.length := by
  unfold goLastIndexByte at *
  match hf : s.reverse.findIdx? (fun x => x = c) with
  | none => simp [hf] at h
  | some k =>
    obtain ⟨hk, -⟩ := List.findIdx?_eq_some_iff_getElem.mp hf
    simp only [List.length_reverse] at hk
    simp only [hf]
    omega

theorem mem_slice {input : GoStr} {a b : Nat} {c : Char}
    (h : c ∈ Tmpl.slice input a b) :
    ∃ i, a ≤ i ∧ i < b ∧ byteAt input i = ci c := by
  unfold Tmpl.slice at h
  obtain ⟨k, hk, hget⟩ := List.getElem_of_mem h
  have hlen := hk
  simp only [List.length_take, List.length_drop, Nat.lt_min] at hlen
  have hk1 : k < b - a := hlen.1
  have hk2 : k < input.length - a := hlen.2
  refine ⟨a + k, Nat.le_add_right _ _, by omega, ?_⟩
  have hbound : a + k < input.length := by omega
  have hc : input[a + k] = c := by
    rw [← hget, List.getElem_take, List.getElem_drop]
  unfold byteAt
  rw [List.get?_eq_getElem?, List.getElem?_eq_getElem (by omega : a + k < input.length)]
  simp [hc, ci]

theorem spansOrdered_head_le {lo : Nat} {sps : List (Nat × Nat)}
    (h : spansOrdered lo sps = true) :
    ∀ sp ∈ sps, lo ≤ sp.1 ∧ sp.1 ≤ sp.2 := by
  induction sps generalizing lo with
  | nil => intro sp hsp; simp at hsp
  | cons s0 rest ih =>
    simp only [spansOrdered, Bool.and_eq_true, decide_eq_true_eq] at h
    intro sp hsp
    rcases List.mem_cons.mp hsp with rfl | hmem
    · exact ⟨h.1.1, h.1.2⟩
    · have := ih h.2 sp hmem
      omega

end Dbgen

namespace Dbgen
open Constant Tmpl Core

theorem braceAt_of {input : GoStr} {i : Nat} {c : Char}
    (hbyte : byteAt input i = ci c) (hb : braceChar c = true) :
    braceAt input i = true := by
  have hcc : c = '{' ∨ c = '}' := by
    have hb' := hb
    unfold braceChar at hb'
    simpa using hb'
  unfold braceAt
  rcases hcc with rfl | rfl <;> simp [hbyte]

theorem extractLoop_nobrace (input : GoStr) (endPos : Nat) :
    ∀ (spans : List (Nat × Nat)) (start b : Nat),
      spansOrdered b spans = true → b ≤ start →
      spans.all (fun sp => decide (sp.2 ≤ endPos)) = true →
      (∀ i, i < endPos → b ≤ i → braceAt input i = true →
        ∃ sp ∈ spans, sp.1 ≤ i ∧ i < sp.2) →
      ∀ c ∈ extractLoop input endPos spans start, braceChar c = false := by
  intro spans
  induction spans with
  | nil =>
    intro start b _ hb _ hcov c hc
    rw [extractLoop] at hc
    cases hbc : braceChar c
    · rfl
    · exfalso
      obtain ⟨i, hai, hib, hbyte⟩ := mem_slice hc
      obtain ⟨sp, hsp, -⟩ := hcov i hib (le_trans hb hai) (braceAt_of hbyte hbc)
      simp at hsp
  | cons sp0 rest ih =>
    obtain ⟨l, r⟩ := sp0
    intro start b hord hb hbnd hcov c hc
    simp only [spansOrdered, Bool.and_eq_true, decide_eq_true_eq] at hord
    obtain ⟨⟨hbl, hlr⟩, hrest⟩ := hord
    simp only [List.all_cons, Bool.and_eq_true, decide_eq_true_eq] at hbnd
    obtain ⟨hrend, hbndrest⟩ := hbnd
    have gap : ∀ x, x ≤ l → ∀ c', c' ∈ Tmpl.slice input start x →
        braceChar c' = false := by
      intro x hxl c' hc'
      cases hbc : braceChar c'
      · rfl
      · exfalso
        obtain ⟨i, hai, hix, hbyte⟩ := mem_slice hc'
        obtain ⟨sp, hsp, hsp1, hsp2⟩ :=
          hcov i (by omega) (by omega) (braceAt_of hbyte hbc)
        rcases List.mem_cons.mp hsp with heq | hmem
        · rw [heq] at hsp1; simp at hsp1; omega
        · have := spansOrdered_head_le hrest sp hmem
          omega
    have recH : ∀ s', r ≤ s' → ∀ c', c' ∈ extractLoop input endPos rest s' →
        braceChar c' = false := by
      intro s' hs'
      refine ih s' r hrest hs' hbndrest ?_
      intro i h1 h2 h3
      obtain ⟨sp, hsp, hsp1, hsp2⟩ := hcov i h1 (by omega) h3
      rcases List.mem_cons.mp hsp with heq | hmem
      · rw [heq] at hsp1 hsp2; simp at hsp1 hsp2; omega
      · exact ⟨sp, hmem, hsp1, hsp2⟩
    simp only [extractLoop] at hc
    split at hc
    case isTrue hE0 =>
      have hE := of_decide_eq_true hE0
      have hsl : (Tmpl.slice input start l).length ≤ l - start := by
        unfold Tmpl.slice; rw [List.length_take]; exact Nat.min_le_left _ _
      obtain ⟨hge, hlt⟩ := goLastIndexByte_bound hE.1
      rcases List.mem_append.mp hc with hAB | hB
      · rcases List.mem_append.mp hAB with hA | hNl
        · exact gap _ (by omega) c hA
        · have : c = '\n' := by simpa using hNl
          subst this; decide
      · exact recH _ (by omega) c hB
    case isFalse hE0 =>
      rcases List.mem_append.mp hc with hAB | hB
      · rcases List.mem_append.mp hAB with hA | hNl
        · exact gap _ (by split <;> omega) c hA
        · have : c = ' ' := by simpa using hNl
          subst this; decide
      · exact recH _ (by split <;> omega) c hB

end Dbgen

namespace Dbgen
open Constant Tmpl Core

theorem mergeLoop_acc (input : GoStr) :
    ∀ (rest : List (Nat × Nat)) (last : Nat × Nat) (acc : List (Nat × Nat)),
      mergeLoop input rest last acc = acc ++ mergeLoop input rest last [] := by
  intro rest
  induction rest with
  | nil => intro last acc; simp [mergeLoop]
  | cons sp rest' ih =>
    intro last acc
    rw [mergeLoop, mergeLoop]
    split
    · exact ih _ acc
    · rw [ih sp (acc ++ [last])]
      simp only [List.nil_append]
      rw [ih sp [last]]
      simp

end Dbgen

namespace Dbgen
open Constant Tmpl Core

theorem mergeLoop_ordered (input : GoStr) :
    ∀ (rest : List (Nat × Nat)) (last : Nat × Nat) (lo : Nat),
      spansOrdered lo (last :: rest) = true →
      spansOrdered lo (mergeLoop input rest last []) = true := by
  intro rest
  induction rest with
  | nil =>
    intro last lo h
    rw [mergeLoop]
    simpa [spansOrdered] using h
  | cons sp rest' ih =>
    intro last lo h
    simp only [spansOrdered, Bool.and_eq_true, decide_eq_true_eq] at h
    obtain ⟨⟨h1, h2⟩, ⟨h3, h4⟩, h5⟩ := h
    rw [mergeLoop]
    split
    · refine ih (last.1, sp.2) lo ?_
      simp only [spansOrdered, Bool.and_eq_true, decide_eq_true_eq]
      exact ⟨⟨h1, by omega⟩, h5⟩
    · simp only [List.nil_append]
      rw [mergeLoop_acc input rest' sp [last]]
      have htail := ih sp last.2 (by
        simp only [spansOrdered, Bool.and_eq_true, decide_eq_true_eq]
        exact ⟨⟨h3, h4⟩, h5⟩)
      simp only [List.singleton_append, spansOrdered, Bool.and_eq_true,
        decide_eq_true_eq]
      exact ⟨⟨h1, h2⟩, htail⟩

theorem mergeLoop_bounded (input : GoStr) (endPos : Nat) :
    ∀ (rest : List (Nat × Nat)) (last : Nat × Nat),
      ((last :: rest).all (fun sp => decide (sp.2 ≤ endPos))) = true →
      ((mergeLoop input rest last []).all (fun sp => decide (sp.2 ≤ endPos))) = true := by
  intro rest
  induction rest with
  | nil =>
    intro last h
    rw [mergeLoop]
    simpa using h
  | cons sp rest' ih =>
    intro last h
    simp only [List.all_cons, Bool.and_eq_true, decide_eq_true_eq] at h
    obtain ⟨h1, h2, h3⟩ := h
    rw [mergeLoop]
    split
    · refine ih (last.1, sp.2) ?_
      simp only [List.all_cons, Bool.and_eq_true, decide_eq_true_eq]
      exact ⟨h2, h3⟩
    · simp only [List.nil_append]
      rw [mergeLoop_acc input rest' sp [last]]
      have htail := ih sp (by
        simp only [List.all_cons, Bool.and_eq_true, decide_eq_true_eq]
        exact ⟨h2, h3⟩)
      simp only [List.singleton_append, List.all_cons, Bool.and_eq_true,
        decide_eq_true_eq]
      exact ⟨h1, htail⟩

theorem mergeLoop_covers (input : GoStr) :
    ∀ (rest : List (Nat × Nat)) (last : Nat × Nat) (lo : Nat),
      spansOrdered lo (last :: rest) = true →
      ∀ sp0 ∈ last :: rest, ∃ m ∈ mergeLoop input rest last [],
        m.1 ≤ sp0.1 ∧ sp0.2 ≤ m.2 := by
  intro rest
  induction rest with
  | nil =>
    intro last lo _ sp0 hsp0
    rw [mergeLoop]
    rcases List.mem_cons.mp hsp0 with rfl | h
    · exact ⟨sp0, List.mem_singleton.mpr rfl, le_refl _, le_refl _⟩
    · simp at h
  | cons sp rest' ih =>
    intro last lo h sp0 hsp0
    simp only [spansOrdered, Bool.and_eq_true, decide_eq_true_eq] at h
    obtain ⟨⟨h1, h2⟩, ⟨h3, h4⟩, h5⟩ := h
    rw [mergeLoop]
    split
    case isTrue hw =>
      have hord' : spansOrdered lo ((last.1, sp.2) :: rest') = true := by
        simp only [spansOrdered, Bool.and_eq_true, decide_eq_true_eq]
        exact ⟨⟨h1, by omega⟩, h5⟩
      rcases List.mem_cons.mp hsp0 with heq | hmem
      · subst heq
        obtain ⟨m, hm, hm1, hm2⟩ := ih (sp0.1, sp.2) lo hord' (sp0.1, sp.2)
          (List.mem_cons_self _ _)
        exact ⟨m, hm, by simp at hm1; omega, by simp at hm2; omega⟩
      · rcases List.mem_cons.mp hmem with heq' | hmem'
        · subst heq'
          obtain ⟨m, hm, hm1, hm2⟩ := ih (last.1, sp0.2) lo hord' (last.1, sp0.2)
            (List.mem_cons_self _ _)
          exact ⟨m, hm, by simp at hm1; omega, by simp at hm2; omega⟩
        · obtain ⟨m, hm, hm1, hm2⟩ := ih (last.1, sp.2) lo hord' sp0
            (List.mem_cons_of_mem _ hmem')
          exact ⟨m, hm, hm1, hm2⟩
    case isFalse hw =>
      simp only [List.nil_append]
      rw [mergeLoop_acc input rest' sp [last]]
      rcases List.mem_cons.mp hsp0 with heq | hmem
      · subst heq
        exact ⟨sp0, List.mem_append.mpr (Or.inl (List.mem_singleton.mpr rfl)),
          le_refl _, le_refl _⟩
      · have hord' : spansOrdered last.2 (sp :: rest') = true := by
          simp only [spansOrdered, Bool.and_eq_true, decide_eq_true_eq]
          exact ⟨⟨h3, h4⟩, h5⟩
        obtain ⟨m, hm, hm1, hm2⟩ := ih sp last.2 hord' sp0 hmem
        exact ⟨m, List.mem_append.mpr (Or.inr hm), hm1, hm2⟩

end Dbgen

namespace Dbgen
open Constant Tmpl Core

/-- C4 counterexample: a template that parses successfully whose
table `Content` still contains `{{` and `}}`: a statement block in the
table-options section (after the closing parenthesis of the column list)
is not recorded as a block span, so `extractTableContent` leaves it in
place. -/
theorem C4_options_section_block_survives :
    (Parse 99 (str "create table t (a \x7b\x7b rownum \x7d\x7d) \x7b\x7b rownum \x7d\x7d;")).map
        (fun tmpl => tmpl.tables.map (fun t => String.mk t.content))
      = .ok ["create table t (a ) \x7b\x7b rownum \x7d\x7d;"]
    ∧ goIndex (str "create table t (a ) \x7b\x7b rownum \x7d\x7d;") (str "\x7b\x7b") ≠ -1 := by
  exact ⟨rfl, by decide⟩

/-- C4 (amended): `extractTableContent` produces brace-free content
provided every curly brace of the input between `start` and `endPos`
lies inside one of the recorded block spans, the spans are ordered and
disjoint starting at or after `start`, and they end by `endPos`.  (The
unamended claim is refuted by `C4_options_section_block_survives`:
statement blocks in the table-options section are not recorded as
spans.) -/
theorem C4_extracted_content_brace_free (input : GoStr) (start endPos : Nat)
    (spans : List (Nat × Nat))
    (hord : spansOrdered start spans = true)
    (hbnd : spans.all (fun sp => decide (sp.2 ≤ endPos)) = true)
    (hcov : spansCover input start endPos spans) :
    (extractTableContent input start endPos spans).all
      (fun c => !braceChar c) = true := by
  rw [List.all_eq_true]
  intro c hc
  have hmain : braceChar c = false := by
    rw [extractTableContent] at hc
    cases spans with
    | nil =>
      refine extractLoop_nobrace input endPos [] start start
        (by simp [spansOrdered]) (le_refl _) (by simp) ?_ c ?_
      · intro i h1 h2 h3
        obtain ⟨sp, hsp, -⟩ := hcov i h1 h2 h3
        exact absurd hsp (List.not_mem_nil sp)
      · simpa [mergeBlockSpans] using hc
    | cons s0 rest =>
      rw [mergeBlockSpans] at hc
      refine extractLoop_nobrace input endPos (mergeLoop input rest s0 [])
        start start (mergeLoop_ordered input rest s0 start hord) (le_refl _)
        (mergeLoop_bounded input endPos rest s0 hbnd) ?_ c hc
      intro i h1 h2 h3
      obtain ⟨sp, hsp, hsp1, hsp2⟩ := hcov i h1 h2 h3
      obtain ⟨m, hm, hm1, hm2⟩ := mergeLoop_covers input rest s0 start hord sp hsp
      exact ⟨m, hm, by omega, by omega⟩
  simp [hmain]

/-- C4 witness: the amended guarantee applied to the concrete input
`create table t (a {{ rownum }});` with the span the parser records for
its single statement block. -/
theorem C4_extracted_content_brace_free_witness :
    (extractTableContent (str "create table t (a \x7b\x7b rownum \x7d\x7d);") 0 32
      [(18, 30)]).all (fun c => !braceChar c) = true :=
  C4_extracted_content_brace_free (str "create table t (a \x7b\x7b rownum \x7d\x7d);")
    0 32 [(18, 30)] (by decide) (by decide) (by unfold spansCover; decide)

end Dbgen

namespace Dbgen
open Constant Tmpl Core

theorem goIndexAux_spec (pat : GoStr) : ∀ (s : GoStr),
    (goIndexAux pat s = -1 ∧ ∀ j, pat.isPrefixOf (s.drop j) = false) ∨
    (∃ k : Nat, goIndexAux pat s = (k : Int)
      ∧ pat.isPrefixOf (s.drop k) = true
      ∧ ∀ j, j < k → pat.isPrefixOf (s.drop j) = false) := by
  intro s
  induction s with
  | nil =>
    cases hp : pat.isPrefixOf ([] : GoStr)
    · left
      refine ⟨by simp [goIndexAux, hp], fun j => by simpa using hp⟩
    · right
      exact ⟨0, by simp [goIndexAux, hp], by simpa using hp,
        fun j hj => absurd hj (Nat.not_lt_zero j)⟩
  | cons a t ih =>
    cases hp : pat.isPrefixOf (a :: t)
    · rcases ih with ⟨h1, h2⟩ | ⟨k, h1, h2, h3⟩
      · left
        refine ⟨by simp [goIndexAux, hp, h1], fun j => ?_⟩
        match j with
        | 0 => simpa using hp
        | j + 1 => simpa using h2 j
      · right
        refine ⟨k + 1, ?_, by simpa using h2, fun j hj => ?_⟩
        · have hk : ((k : Int) = -1) = False := by
            simp
          simp [goIndexAux, hp, h1, hk]
        · match j with
          | 0 => simpa using hp
          | j + 1 => simpa using h3 j (by omega)
    · right
      exact ⟨0, by simp [goIndexAux, hp], by simpa using hp,
        fun j hj => absurd hj (Nat.not_lt_zero j)⟩

theorem isPrefixOf_append {pat s : GoStr} (h : pat.isPrefixOf s = true) :
    ∃ tl, s = pat ++ tl := by
  obtain ⟨tl, htl⟩ := List.isPrefixOf_iff_prefix.mp h
  exact ⟨tl, htl.symm⟩

end Dbgen

namespace Dbgen
open Constant Tmpl Core

theorem delim_cond_iff (rest : GoStr) (k : Nat)
    (hk : goIndex rest (str "*/") = (k : Int)) :
    (goIndex rest (str "\x7d\x7d*/") ≠ -1
      ∧ goIndex rest (str "\x7d\x7d*/") + 2 = goIndex rest (str "*/"))
    ↔ (2 ≤ k ∧ Tmpl.slice rest (k - 2) k = str "\x7d\x7d") := by
  unfold goIndex at hk
  rcases goIndexAux_spec (str "*/") rest with ⟨h1, -⟩ | ⟨k', hk', hPk, hMin⟩
  · rw [h1] at hk; exact absurd hk.symm (by simp)
  · rw [hk'] at hk
    have hkk : k' = k := by exact_mod_cast hk
    subst hkk
    constructor
    · rintro ⟨hne, heq⟩
      unfold goIndex at hne heq
      rcases goIndexAux_spec (str "\x7d\x7d*/") rest with ⟨h1, -⟩ | ⟨d, hd1, hd2, -⟩
      · exact absurd h1 hne
      · rw [hd1] at heq
        rw [hk'] at heq
        have hdk : k' = d + 2 := by exact_mod_cast heq.symm
        obtain ⟨tl, htl⟩ := isPrefixOf_append hd2
        have hstr : str "\x7d\x7d*/" = '}' :: '}' :: '*' :: '/' :: [] := rfl
        refine ⟨by omega, ?_⟩
        unfold Tmpl.slice
        have h2 : k' - 2 = d := by omega
        rw [h2]
        have h3 : k' - d = 2 := by omega
        rw [h3, htl, hstr]
        rfl
    · rintro ⟨h2k, hsl⟩
      have e1 : (rest.drop (k' - 2)).take 2 = str "\x7d\x7d" := by
        have h3 : k' - (k' - 2) = 2 := by omega
        unfold Tmpl.slice at hsl
        rw [h3] at hsl
        exact hsl
      have e2 : (rest.drop (k' - 2)).drop 2 = rest.drop k' := by
        rw [List.drop_drop]
        congr 1
        omega
      have e0 : rest.drop (k' - 2) = str "\x7d\x7d" ++ rest.drop k' := by
        conv_lhs => rw [← List.take_append_drop 2 (rest.drop (k' - 2))]
        rw [e1, e2]
      obtain ⟨tl, htl⟩ := isPrefixOf_append hPk
      have hpre : (str "\x7d\x7d*/").isPrefixOf (rest.drop (k' - 2)) = true := by
        rw [List.isPrefixOf_iff_prefix, e0, htl]
        exact ⟨tl, by rfl⟩
      rcases goIndexAux_spec (str "\x7d\x7d*/") rest with ⟨-, hall⟩ | ⟨d, hd1, hd2, hd3⟩
      · exact absurd hpre (by simp [hall (k' - 2)])
      · have hd_le : d ≤ k' - 2 := by
          by_contra hlt
          push_neg at hlt
          exact absurd hpre (by simp [hd3 (k' - 2) hlt])
        have hd_ge : ¬ d < k' - 2 := by
          intro hlt
          obtain ⟨tl', htl'⟩ := isPrefixOf_append hd2
          have hx : rest.drop (d + 2) = str "*/" ++ tl' := by
            have hy : rest.drop (d + 2) = (rest.drop d).drop 2 := by
              rw [List.drop_drop]
            rw [hy, htl']
            rfl
          have hz : (str "*/").isPrefixOf (rest.drop (d + 2)) = true := by
            rw [List.isPrefixOf_iff_prefix, hx]
            exact List.prefix_append _ _
          exact absurd hz (by simp [hMin (d + 2) (by omega)])
        have hdeq : d = k' - 2 := by omega
        subst hdeq
        refine ⟨?_, ?_⟩
        · unfold goIndex
          rw [hd1]
          omega
        · unfold goIndex
          rw [hd1, hk']
          omega

end Dbgen

namespace Dbgen
open Constant Tmpl Core

/-- C5: when the lexer scans a `/*` comment opener (outside block
mode), it emits a LeftDelim token and enters block mode iff the comment
opens with `/*{{` and the first following `*/` is immediately preceded
by `}}`; otherwise it emits an ordinary Comment token. -/
theorem C5_comment_block_decision (l : LexState)
    (_hib : l.insideBlock = false)
    (hpk : lpeek l = ci '/')
    (hcl : goIndex (l.inp.drop l.pos) (str "*/") ≠ -1) :
    (((lexComment l).1.typ = .tokLeftDelim ∧ (lexComment l).2.insideBlock = true)
      ↔ ((str "/*\x7b\x7b").isPrefixOf (l.inp.drop l.pos) = true
          ∧ 2 ≤ (goIndex (l.inp.drop l.pos) (str "*/")).toNat
          ∧ Tmpl.slice (l.inp.drop l.pos)
              ((goIndex (l.inp.drop l.pos) (str "*/")).toNat - 2)
              ((goIndex (l.inp.drop l.pos) (str "*/")).toNat) = str "\x7d\x7d"))
    ∧ (¬((str "/*\x7b\x7b").isPrefixOf (l.inp.drop l.pos) = true
          ∧ 2 ≤ (goIndex (l.inp.drop l.pos) (str "*/")).toNat
          ∧ Tmpl.slice (l.inp.drop l.pos)
              ((goIndex (l.inp.drop l.pos) (str "*/")).toNat - 2)
              ((goIndex (l.inp.drop l.pos) (str "*/")).toNat) = str "\x7d\x7d")
        → (lexComment l).1.typ = .tokComment) := by
  obtain ⟨k, hk⟩ : ∃ k : Nat, goIndex (l.inp.drop l.pos) (str "*/") = (k : Int) := by
    rcases goIndexAux_spec (str "*/") (l.inp.drop l.pos) with ⟨h1, -⟩ | ⟨k, hk, -, -⟩
    · exact absurd h1 hcl
    · exact ⟨k, hk⟩
  have htn : (goIndex (l.inp.drop l.pos) (str "*/")).toNat = k := by
    rw [hk]; exact Int.toNat_natCast k
  have hiff := delim_cond_iff (l.inp.drop l.pos) k hk
  have hne : ¬ lpeek l = ci '-' := by
    rw [hpk]; decide
  by_cases hD : ((str "/*\x7b\x7b").isPrefixOf (l.inp.drop l.pos) = true
      ∧ goIndex (l.inp.drop l.pos) (str "\x7d\x7d*/") ≠ -1
      ∧ goIndex (l.inp.drop l.pos) (str "\x7d\x7d*/") + 2
          = goIndex (l.inp.drop l.pos) (str "*/"))
  · have hres : lexComment l = lexLeftDelim l := by
      simp only [lexComment]
      rw [if_neg hne, if_pos hpk, if_neg hcl, if_pos hD]
    have hcond := hiff.mp ⟨hD.2.1, hD.2.2⟩
    have hld : (lexLeftDelim l).1.typ = .tokLeftDelim
        ∧ (lexLeftDelim l).2.insideBlock = true := by
      rw [lexLeftDelim, if_pos hpk]
      exact ⟨rfl, rfl⟩
    constructor
    · rw [hres]
      constructor
      · intro _
        exact ⟨hD.1, htn ▸ hcond.1, htn ▸ hcond.2⟩
      · intro _
        exact hld
    · intro hn
      exact absurd ⟨hD.1, htn ▸ hcond.1, htn ▸ hcond.2⟩ hn
  · have hres : (lexComment l).1.typ = .tokComment := by
      simp only [lexComment]
      rw [if_neg hne, if_pos hpk, if_neg hcl, if_neg hD]
      rfl
    constructor
    · constructor
      · intro hL
        rw [hres] at hL
        exact absurd hL.1 (by simp)
      · intro hR
        exfalso
        refine hD ⟨hR.1, ?_⟩
        have := hiff.mpr ⟨htn ▸ hR.2.1, htn ▸ hR.2.2⟩
        exact this
    · intro _
      exact hres

end Dbgen

namespace Dbgen
open Constant Tmpl Core

theorem C5_comment_block_decision_witness :
    (lexComment (newLexer (str "/*\x7b\x7b abc */ \x7d\x7d*/"))).1.typ = .tokComment
    ∧ (lexAll 99 (newLexer (str "/*\x7b\x7b abc */ \x7d\x7d*/"))).map
        (fun t => (t.typ, String.mk t.val))
      = [(.tokComment, "/*\x7b\x7b abc */"), (.tokRightDelim, "\x7d\x7d"),
         (.tokMul, "*"), (.tokFloatDiv, "/"), (.tokEOF, "")] := by
  constructor
  · exact (C5_comment_block_decision (newLexer (str "/*\x7b\x7b abc */ \x7d\x7d*/"))
      rfl rfl (by decide)).2 (by decide)
  · rfl

end Dbgen
